import Mathlib

namespace Scryfall

/-!
Verification of the scryfall typed-mapping layer: a shallow embedding of the
validated-deserialization core (src/types/{price,uri,card,list,set,error}.rs)
together with proofs settling the frozen claims.

Wire JSON is modelled by an inductive `Json`; each Rust `Deserialize`
implementation becomes an explicit `Json → Except DErr α` function.  The
serde-derive semantics embedded here: objects are field lists, a duplicated
known field is an error, unknown fields are ignored, a field of type
`Option<T>` treats a missing key or a `null` value as `None`, any other
failure fails the whole record.  Numeric wire values are modelled exactly
(as rationals); the IEEE-754 specifics of `f64` that the claims touch
(the `inf`/`infinity`/`nan` literal forms, and `NaN != NaN` under `==`)
are modelled by the carrier `FVal` and the comparison `fvalBeq`.
-/

deriving instance DecidableEq for Except


/-- Wire JSON values, as serde_json presents them to the deserializers. -/
inductive Json where
  | null
  | bool (b : Bool)
  | num (q : ℚ)
  | str (s : String)
  | arr (elems : List Json)
  | obj (fields : List (String × Json))


/-- Validation failures of the core (spec section 7 taxonomy). -/
inductive DErr where
  | missingField (name : String)
  | duplicateField (name : String)
  | invalidType (expected : String)
  | unknownTag (raw : String)
  | invalidPrice (raw : String)
  | invalidUri (raw : String)
  | invalidUuid (raw : String)
  deriving DecidableEq


/-- Look a field up in a wire object: absent, present once, or a duplicate
(serde derive rejects a duplicated known field). -/
def getField (l : List (String × Json)) (name : String) : Except DErr (Option Json) :=
  match l.filter (fun kv => kv.fst = name) with
  | [] => .ok none
  | [kv] => .ok (some kv.snd)
  | _ => .error (.duplicateField name)


/-- A required struct field: missing is an error, otherwise the field's
deserializer runs on the value. -/
def reqField (l : List (String × Json)) (name : String)
    (p : Json → Except DErr α) : Except DErr α :=
  (getField l name).bind fun o =>
    match o with
    | none => .error (.missingField name)
    | some j => p j


/-- An `Option<T>` struct field: missing or `null` is `none`, otherwise the
field's deserializer runs and a failure fails the record. -/
def optField (l : List (String × Json)) (name : String)
    (p : Json → Except DErr α) : Except DErr (Option α) :=
  (getField l name).bind fun o =>
    match o with
    | none => .ok none
    | some .null => .ok none
    | some j => (p j).map some


/-- Elementwise deserialization of a wire array, failing on the first bad
element (the `Vec<T>` semantics). -/
def mapExcept (p : Json → Except DErr α) : List Json → Except DErr (List α)
  | [] => .ok []
  | j :: js => (p j).bind fun a => (mapExcept p js).bind fun as => .ok (a :: as)


/-- A `String` leaf. -/
def strFromJson : Json → Except DErr String
  | .str s => .ok s
  | _ => .error (.invalidType "String")


/-- A `bool` leaf. -/
def boolFromJson : Json → Except DErr Bool
  | .bool b => .ok b
  | _ => .error (.invalidType "bool")


/-- A `u32` leaf: the wire number must be an integer in range. -/
def u32FromJson : Json → Except DErr Nat
  | .num q => if q.den = 1 ∧ 0 ≤ q.num ∧ q.num < 4294967296
      then .ok q.num.toNat else .error (.invalidType "u32")
  | _ => .error (.invalidType "u32")


/-- A `u64` leaf: the wire number must be an integer in range. -/
def u64FromJson : Json → Except DErr Nat
  | .num q => if q.den = 1 ∧ 0 ≤ q.num ∧ q.num < 18446744073709551616
      then .ok q.num.toNat else .error (.invalidType "u64")
  | _ => .error (.invalidType "u64")


/-- A `Vec<T>` leaf. -/
def vecFromJson (p : Json → Except DErr α) : Json → Except DErr (List α)
  | .arr js => mapExcept p js
  | _ => .error (.invalidType "Vec")


/-! ## The `f64` string parser behind `Price`

`PriceVisitor::visit_str` runs `value.parse::<f64>()` (src/types/price.rs,
lines 14-19).  Rust's `f64: FromStr` accepts, after an optional sign, either
a decimal number (`Digit+ | Digit+ '.' Digit* | Digit* '.' Digit+`, with an
optional `e|E Sign? Digit+` exponent) or one of the case-insensitive literals
`inf`, `infinity`, `nan`.  The parse never fails on a grammatical string:
out-of-range numbers round to infinity, so acceptance is exactly the grammar.
Finite values are modelled as exact rationals (the rounding of a decimal
literal to the nearest representable `f64` is not modelled); the non-finite
results keep their own constructors. -/

/-- The value of a parsed `f64` string: a finite number, a signed infinity,
or NaN. -/
inductive FVal where
  | finite (q : ℚ)
  | inf (neg : Bool)
  | nan
  deriving DecidableEq


/-- Whether a parsed `f64` value is finite (`f64::is_finite`). -/
def FVal.isFinite : FVal → Bool
  | .finite _ => true
  | _ => false


/-- Whether a parsed `f64` value is NaN (`f64::is_nan`). -/
def FVal.isNan : FVal → Bool
  | .nan => true
  | _ => false


/-- ASCII decimal digit test. -/
def isDigit (c : Char) : Bool := '0' ≤ c && c ≤ '9'


/-- Strip one optional leading sign; `true` means negative. -/
def stripSign : List Char → Bool × List Char
  | [] => (false, [])
  | c :: cs =>
      if c = '+' then (false, cs)
      else if c = '-' then (true, cs)
      else (false, c :: cs)


/-- Split off the longest leading run of digits. -/
def takeDigits : List Char → List Char × List Char
  | [] => ([], [])
  | c :: cs =>
      if isDigit c then
        let p := takeDigits cs
        (c :: p.1, p.2)
      else ([], c :: cs)


/-- Numeric value of a digit run. -/
def digitsToNat (ds : List Char) : Nat :=
  ds.foldl (fun a c => a * 10 + (c.toNat - 48)) 0


/-- Parse what follows the mantissa: nothing, or `e|E Sign? Digit+`
consuming the entire remainder. -/
def parseExpTail : List Char → Option Int
  | [] => some 0
  | c :: cs =>
      if c = 'e' ∨ c = 'E' then
        let p := stripSign cs
        let d := takeDigits p.2
        if d.1 ≠ [] ∧ d.2 = [] then
          some (if p.1 then -(digitsToNat d.1 : Int) else (digitsToNat d.1 : Int))
        else none
      else none


/-- Exact value of a decimal literal `ip . fp × 10^ex`. -/
def decValue (ip fp : List Char) (ex : Int) : ℚ :=
  let sh : Int := ex - (fp.length : Int)
  if 0 ≤ sh then (digitsToNat (ip ++ fp) : ℚ) * ((10 ^ sh.toNat : ℕ) : ℚ)
  else (digitsToNat (ip ++ fp) : ℚ) / ((10 ^ (-sh).toNat : ℕ) : ℚ)


/-- Parse an unsigned decimal number consuming the entire input: an integer
part, an optional `.` with a fraction part, an optional exponent; at least
one digit around the decimal point. -/
def parseNumTail (cs : List Char) : Option ℚ :=
  let p := takeDigits cs
  if p.2.head? = some '.' then
    let q := takeDigits p.2.tail
    if p.1 = [] ∧ q.1 = [] then none
    else
      match parseExpTail q.2 with
      | some ex => some (decValue p.1 q.1 ex)
      | none => none
  else if p.1 = [] then none
  else
    match parseExpTail p.2 with
    | some ex => some (decValue p.1 [] ex)
    | none => none


/-- The body of Rust's `str::parse::<f64>` on the character list of a
non-empty input: strip the sign, then try a decimal number, then the
case-insensitive special literals. -/
def f64Core (cs : List Char) : Option FVal :=
  let p := stripSign cs
  match parseNumTail p.2 with
  | some q => some (.finite (if p.1 then -q else q))
  | none =>
      let low := p.2.map Char.toLower
      if low = "inf".data ∨ low = "infinity".data then some (.inf p.1)
      else if low = "nan".data then some .nan
      else none


/-- Rust's `str::parse::<f64>` as the price validator invokes it: the empty
string fails, everything else goes through `f64Core`. -/
def f64FromStr (s : String) : Option FVal :=
  match s.data with
  | [] => none
  | cs => f64Core cs


/-- A validated price (`Price(pub f64)`). -/
structure Price where
  val : FVal
  deriving DecidableEq


/-- Price deserialization (`PriceVisitor::visit_str`): the wire value must be
a string whose entire content `str::parse::<f64>` accepts. -/
def priceFromJson : Json → Except DErr Price
  | .str s =>
      match f64FromStr s with
      | some v => .ok ⟨v⟩
      | none => .error (.invalidPrice s)
  | _ => .error (.invalidType "Price")


/-! ## The `http::Uri` parser behind `Uri`

`UriVisitor::visit_str` runs `value.parse::<http::Uri>()` (src/types/uri.rs,
lines 15-20).  The http crate parses HTTP request targets, not RFC 3986
absolute URIs: it accepts absolute-form (`scheme://authority[path-and-query]`),
origin-form (a string starting with `/`), authority-form (a whole-string
authority with no scheme), and the asterisk `*`.  A scheme is recognised only
when a run of scheme characters is followed by `://`; with no scheme the
entire string after the leading-`/` check must be a single authority.  Text
from the first `#` on (a fragment) is dropped without validation; all other
characters must come from the crate's URI character table.  The model keeps
the three components the crate keeps. -/

/-- Characters the http crate admits in a URI (RFC 3986 unreserved and
sub-delimiters plus `: @ / ? % [ ]`); control characters, space, `#`, `"`,
`<`, `>`, `\`, `^`, `` ` ``, `{`, `|`, `}` are rejected. -/
def isUriChar (c : Char) : Bool :=
  c.isAlphanum || c = '!' || c = '$' || c = '&' || c = Char.ofNat 39 ||
  c = '(' || c = ')' || c = '*' || c = '+' || c = ',' || c = '-' || c = '.' ||
  c = '/' || c = ':' || c = ';' || c = '=' || c = '?' || c = '@' ||
  c = '[' || c = ']' || c = '_' || c = '~' || c = '%'


/-- Characters admissible inside an authority: URI characters other than the
delimiters `/` and `?` that end the authority. -/
def isAuthChar (c : Char) : Bool :=
  isUriChar c && !(c = '/') && !(c = '?')


/-- Characters admissible in a scheme name (alphanumerics and `+ - .`). -/
def isSchemeChar (c : Char) : Bool :=
  c.isAlphanum || c = '+' || c = '-' || c = '.'


/-- Everything before the first `#` (the crate drops the fragment without
validating it). -/
def takeUntilHash : List Char → List Char
  | [] => []
  | c :: cs => if c = '#' then [] else c :: takeUntilHash cs


/-- Validate a path-and-query: the part before any fragment must be made of
URI characters; the result is that part. -/
def pathAndQueryOf (cs : List Char) : Option (List Char) :=
  let kept := takeUntilHash cs
  if kept.all isUriChar then some kept else none


/-- Scan for a scheme: the longest leading run of scheme characters followed
by `://`.  Any other character (or a `:` not followed by `//`, or an empty
run) means the string has no scheme. -/
def schemeScan (acc : List Char) : List Char → Option (List Char × List Char)
  | [] => none
  | c :: cs =>
      if isSchemeChar c then schemeScan (acc ++ [c]) cs
      else if c = ':' then
        if cs.head? = some '/' ∧ cs.tail.head? = some '/' then
          if acc = [] then none else some (acc, cs.tail.tail)
        else none
      else none


/-- Split an authority from what follows it (the authority ends at the first
`/`, `?` or `#`). -/
def splitAuth : List Char → List Char × List Char
  | [] => ([], [])
  | c :: cs =>
      if c = '/' ∨ c = '?' ∨ c = '#' then ([], c :: cs)
      else
        let p := splitAuth cs
        (c :: p.1, p.2)


/-- The components an `http::Uri` stores. -/
structure HttpUri where
  scheme : Option String
  authority : String
  pathAndQuery : String
  deriving DecidableEq


/-- The multi-character, non-origin-form branch of the crate's parser: an
optional `scheme://`, then an authority; with a scheme the authority must be
non-empty and a path-and-query may follow, without one the entire string must
be the authority. -/
def parseFull (cs : List Char) : Option HttpUri :=
  match schemeScan [] cs with
  | none => if cs.all isAuthChar then some ⟨none, ⟨cs⟩, ""⟩ else none
  | some (sch, rest) =>
      let p := splitAuth rest
      if p.1 = [] then none
      else if p.1.all isAuthChar then
        match pathAndQueryOf p.2 with
        | some kept => some ⟨some ⟨sch⟩, ⟨p.1⟩, ⟨kept⟩⟩
        | none => none
      else none


/-- The branch structure of the crate's `Uri::from_shared` on the character
list: the empty string fails; `/` and `*` are the one-character path forms;
any other single character must be an authority; a longer string starting
with `/` is origin-form; anything else goes through `parseFull`. -/
def uriCore : List Char → Option HttpUri
  | [] => none
  | [c] =>
      if c = '/' then some ⟨none, "", "/"⟩
      else if c = '*' then some ⟨none, "", "*"⟩
      else if isAuthChar c then some ⟨none, ⟨[c]⟩, ""⟩
      else none
  | c :: c2 :: t =>
      if c = '/' then
        match pathAndQueryOf (c :: c2 :: t) with
        | some kept => some ⟨none, "", ⟨kept⟩⟩
        | none => none
      else parseFull (c :: c2 :: t)


/-- Rust's `str::parse::<http::Uri>` as the URI validator invokes it. -/
def httpUriFromStr (s : String) : Option HttpUri :=
  uriCore s.data


/-- Reassemble the stored components (`http::Uri`'s display form). -/
def HttpUri.render (u : HttpUri) : String :=
  (match u.scheme with
   | some sch => sch ++ "://"
   | none => "") ++ u.authority ++ u.pathAndQuery


/-- A validated URI (`Uri(pub http::Uri)`). -/
structure Uri where
  val : HttpUri
  deriving DecidableEq


/-- Uri deserialization (`UriVisitor::visit_str`): the wire value must be a
string `http::Uri` accepts. -/
def uriFromJson : Json → Except DErr Uri
  | .str s =>
      match httpUriFromStr s with
      | some u => .ok ⟨u⟩
      | none => .error (.invalidUri s)
  | _ => .error (.invalidType "Uri")


/-! ## Identifiers and timestamps -/

/-- ASCII hexadecimal digit test. -/
def isHexDigit (c : Char) : Bool :=
  isDigit c || ('a' ≤ c && c ≤ 'f') || ('A' ≤ c && c ≤ 'F')


/-- Validity of the canonical hyphenated UUID text form:
8-4-4-4-12 hexadecimal digits. -/
def uuidOk (cs : List Char) : Bool :=
  cs.length = 36 &&
  cs.enum.all fun p =>
    if p.1 = 8 ∨ p.1 = 13 ∨ p.1 = 18 ∨ p.1 = 23 then p.2 = '-' else isHexDigit p.2


/-- A 128-bit identifier, kept in its validated text form. -/
structure Uuid where
  text : String
  deriving DecidableEq


/-- Modelled from the spec: the repository's `types::uuid` module is not under
src/ (card.rs and set.rs import `super::uuid::Uuid`); per the spec an
Identifier is "a 128-bit identifier … invariant: canonical UUID textual form
on the wire", so the wire value must be a string in the canonical hyphenated
form. -/
def uuidFromJson : Json → Except DErr Uuid
  | .str s => if uuidOk s.data then .ok ⟨s⟩ else .error (.invalidUuid s)
  | _ => .error (.invalidType "Uuid")


/-- A point in time as `std::time::SystemTime`'s serde impl represents it:
whole seconds and sub-second nanoseconds since the epoch. -/
structure SysTime where
  secs : Nat
  nanos : Nat
  deriving DecidableEq


/-- The serde impl of `SystemTime` reads a struct with fields `secs_since_epoch`
(u64) and `nanos_since_epoch` (u32) and normalises via `Duration::new`. -/
def sysTimeFromJson : Json → Except DErr SysTime
  | .obj l =>
      (reqField l "secs_since_epoch" u64FromJson).bind fun s =>
        (reqField l "nanos_since_epoch" u32FromJson).bind fun n =>
          .ok ⟨s + n / 1000000000, n % 1000000000⟩
  | _ => .error (.invalidType "SystemTime")


/-! ## Enumeration mappers

Each `#[derive(Deserialize)]` enum of unit variants deserializes from a wire
string and matches the (renamed) variant tag exactly; an unknown tag is an
error.  The `…FromWire` tables below transcribe the serde rename attributes
of src/types/card.rs: `Color` has explicit one-letter renames, `Layout` and
`Legality` use `snake_case`, `FrameEffect`, `Game` and `Rarity` use
`lowercase`, and `Frame` has explicit year renames. -/

/-- Possible colors that a card can be. -/
inductive Color where
  | white | blue | black | red | green
  deriving DecidableEq, Fintype


/-- Wire tag of each `Color` variant. -/
def colorTag : Color → String
  | .white => "W"
  | .blue => "U"
  | .black => "B"
  | .red => "R"
  | .green => "G"


/-- The `Color` tag table. -/
def colorFromWire (s : String) : Option Color :=
  if s = "W" then some .white
  else if s = "U" then some .blue
  else if s = "B" then some .black
  else if s = "R" then some .red
  else if s = "G" then some .green
  else none


/-- The kind of card, e.g. normal / split / etc. -/
inductive Layout where
  | normal | split | flip | transform | meld | leveler | saga | planar
  | scheme | vanguard | token | doubleFacedToken | emblem | augment | host
  deriving DecidableEq, Fintype


/-- Wire tag of each `Layout` variant (serde `snake_case`). -/
def layoutTag : Layout → String
  | .normal => "normal"
  | .split => "split"
  | .flip => "flip"
  | .transform => "transform"
  | .meld => "meld"
  | .leveler => "leveler"
  | .saga => "saga"
  | .planar => "planar"
  | .scheme => "scheme"
  | .vanguard => "vanguard"
  | .token => "token"
  | .doubleFacedToken => "double_faced_token"
  | .emblem => "emblem"
  | .augment => "augment"
  | .host => "host"


/-- The `Layout` tag table. -/
def layoutFromWire (s : String) : Option Layout :=
  if s = "normal" then some .normal
  else if s = "split" then some .split
  else if s = "flip" then some .flip
  else if s = "transform" then some .transform
  else if s = "meld" then some .meld
  else if s = "leveler" then some .leveler
  else if s = "saga" then some .saga
  else if s = "planar" then some .planar
  else if s = "scheme" then some .scheme
  else if s = "vanguard" then some .vanguard
  else if s = "token" then some .token
  else if s = "double_faced_token" then some .doubleFacedToken
  else if s = "emblem" then some .emblem
  else if s = "augment" then some .augment
  else if s = "host" then some .host
  else none


/-- Frame effects that are applied over the primary Frame kinds. -/
inductive FrameEffect where
  | legendary | miracle | nyxTouched | draft | devoid | tombstone
  | colorShifted | sunMoonDfc | compassLandDfc | originPwDfc | moonEldraziDfc
  deriving DecidableEq, Fintype


/-- Wire tag of each `FrameEffect` variant (serde `lowercase`). -/
def frameEffectTag : FrameEffect → String
  | .legendary => "legendary"
  | .miracle => "miracle"
  | .nyxTouched => "nyxtouched"
  | .draft => "draft"
  | .devoid => "devoid"
  | .tombstone => "tombstone"
  | .colorShifted => "colorshifted"
  | .sunMoonDfc => "sunmoondfc"
  | .compassLandDfc => "compasslanddfc"
  | .originPwDfc => "originpwdfc"
  | .moonEldraziDfc => "mooneldrazidfc"


/-- The `FrameEffect` tag table. -/
def frameEffectFromWire (s : String) : Option FrameEffect :=
  if s = "legendary" then some .legendary
  else if s = "miracle" then some .miracle
  else if s = "nyxtouched" then some .nyxTouched
  else if s = "draft" then some .draft
  else if s = "devoid" then some .devoid
  else if s = "tombstone" then some .tombstone
  else if s = "colorshifted" then some .colorShifted
  else if s = "sunmoondfc" then some .sunMoonDfc
  else if s = "compasslanddfc" then some .compassLandDfc
  else if s = "originpwdfc" then some .originPwDfc
  else if s = "mooneldrazidfc" then some .moonEldraziDfc
  else none


/-- Main Frame kind, e.g. '93, '97, etc. -/
inductive Frame where
  | year1993 | year1997 | year2003 | year2015 | future
  deriving DecidableEq, Fintype


/-- Wire tag of each `Frame` variant (explicit serde renames). -/
def frameTag : Frame → String
  | .year1993 => "1993"
  | .year1997 => "1997"
  | .year2003 => "2003"
  | .year2015 => "2015"
  | .future => "future"


/-- The `Frame` tag table. -/
def frameFromWire (s : String) : Option Frame :=
  if s = "1993" then some .year1993
  else if s = "1997" then some .year1997
  else if s = "2003" then some .year2003
  else if s = "2015" then some .year2015
  else if s = "future" then some .future
  else none


/-- The different kinds of MTG this can be played on. -/
inductive Game where
  | paper | arena | mtgo
  deriving DecidableEq, Fintype


/-- Wire tag of each `Game` variant (serde `lowercase`). -/
def gameTag : Game → String
  | .paper => "paper"
  | .arena => "arena"
  | .mtgo => "mtgo"


/-- The `Game` tag table. -/
def gameFromWire (s : String) : Option Game :=
  if s = "paper" then some .paper
  else if s = "arena" then some .arena
  else if s = "mtgo" then some .mtgo
  else none


/-- Rarity levels that a card can be. -/
inductive Rarity where
  | common | uncommon | rare | mythic
  deriving DecidableEq, Fintype


/-- Wire tag of each `Rarity` variant (serde `lowercase`). -/
def rarityTag : Rarity → String
  | .common => "common"
  | .uncommon => "uncommon"
  | .rare => "rare"
  | .mythic => "mythic"


/-- The `Rarity` tag table. -/
def rarityFromWire (s : String) : Option Rarity :=
  if s = "common" then some .common
  else if s = "uncommon" then some .uncommon
  else if s = "rare" then some .rare
  else if s = "mythic" then some .mythic
  else none


/-- The legality status of this card in different formats. -/
inductive Legality where
  | notLegal | legal | banned | restricted
  deriving DecidableEq, Fintype


/-- Wire tag of each `Legality` variant (serde `snake_case`). -/
def legalityTag : Legality → String
  | .notLegal => "not_legal"
  | .legal => "legal"
  | .banned => "banned"
  | .restricted => "restricted"


/-- The `Legality` tag table. -/
def legalityFromWire (s : String) : Option Legality :=
  if s = "not_legal" then some .notLegal
  else if s = "legal" then some .legal
  else if s = "banned" then some .banned
  else if s = "restricted" then some .restricted
  else none


/-- Lift a tag table to a JSON deserializer: the wire value must be a string
and its content a known tag. -/
def enumFromJson (table : String → Option α) (expected : String) :
    Json → Except DErr α
  | .str s =>
      match table s with
      | some v => .ok v
      | none => .error (.unknownTag s)
  | _ => .error (.invalidType expected)


/-- Deserialization of `Color`. -/
def colorFromJson : Json → Except DErr Color := enumFromJson colorFromWire "Color"


/-- Deserialization of `Layout`. -/
def layoutFromJson : Json → Except DErr Layout := enumFromJson layoutFromWire "Layout"


/-- Deserialization of `FrameEffect`. -/
def frameEffectFromJson : Json → Except DErr FrameEffect :=
  enumFromJson frameEffectFromWire "FrameEffect"


/-- Deserialization of `Frame`. -/
def frameFromJson : Json → Except DErr Frame := enumFromJson frameFromWire "Frame"


/-- Deserialization of `Game`. -/
def gameFromJson : Json → Except DErr Game := enumFromJson gameFromWire "Game"


/-- Deserialization of `Rarity`. -/
def rarityFromJson : Json → Except DErr Rarity := enumFromJson rarityFromWire "Rarity"


/-- Deserialization of `Legality`. -/
def legalityFromJson : Json → Except DErr Legality :=
  enumFromJson legalityFromWire "Legality"


/-- A `HashSet<Color>` wire value: an array of color tags collected into a
finite set (insertion deduplicates, iteration order is immaterial). -/
def colorSetFromJson : Json → Except DErr (Finset Color)
  | .arr js => (mapExcept colorFromJson js).map List.toFinset
  | _ => .error (.invalidType "HashSet<Color>")


/-! ## Record schemas

Each `#[derive(Deserialize)]` struct of src/types/card.rs becomes a parser
that reads its fields (in declaration order), failing the whole record on the
first missing required field, duplicated field, or field whose value its leaf
deserializer rejects.  Unknown fields are ignored, as serde's default. -/

/-- Contains legalities for this card in each format (11 required fields). -/
structure Legalities where
  standard : Legality
  future : Legality
  modern : Legality
  legacy : Legality
  pauper : Legality
  vintage : Legality
  penny : Legality
  commander : Legality
  brawl : Legality
  duel : Legality
  oldschool : Legality
  deriving DecidableEq


/-- Deserialization of `Legalities`. -/
def legalitiesFromJson : Json → Except DErr Legalities
  | .obj l =>
      (reqField l "standard" legalityFromJson).bind fun standard =>
      (reqField l "future" legalityFromJson).bind fun future =>
      (reqField l "modern" legalityFromJson).bind fun modern =>
      (reqField l "legacy" legalityFromJson).bind fun legacy =>
      (reqField l "pauper" legalityFromJson).bind fun pauper =>
      (reqField l "vintage" legalityFromJson).bind fun vintage =>
      (reqField l "penny" legalityFromJson).bind fun penny =>
      (reqField l "commander" legalityFromJson).bind fun commander =>
      (reqField l "brawl" legalityFromJson).bind fun brawl =>
      (reqField l "duel" legalityFromJson).bind fun duel =>
      (reqField l "oldschool" legalityFromJson).bind fun oldschool =>
      .ok ⟨standard, future, modern, legacy, pauper, vintage, penny,
           commander, brawl, duel, oldschool⟩
  | _ => .error (.invalidType "Legalities")


/-- Contains all of the possible URIs for each kind of image. -/
structure ImageUris where
  small : Option Uri
  normal : Option Uri
  large : Option Uri
  png : Option Uri
  art_crop : Option Uri
  border_crop : Option Uri
  deriving DecidableEq


/-- Deserialization of `ImageUris`. -/
def imageUrisFromJson : Json → Except DErr ImageUris
  | .obj l =>
      (optField l "small" uriFromJson).bind fun small =>
      (optField l "normal" uriFromJson).bind fun normal =>
      (optField l "large" uriFromJson).bind fun large =>
      (optField l "png" uriFromJson).bind fun png =>
      (optField l "art_crop" uriFromJson).bind fun art_crop =>
      (optField l "border_crop" uriFromJson).bind fun border_crop =>
      .ok ⟨small, normal, large, png, art_crop, border_crop⟩
  | _ => .error (.invalidType "ImageUris")


/-- Contains prices in different markets for this card. -/
structure Prices where
  usd : Option Price
  usd_foil : Option Price
  eur : Option Price
  tix : Option Price
  deriving DecidableEq


/-- Deserialization of `Prices`. -/
def pricesFromJson : Json → Except DErr Prices
  | .obj l =>
      (optField l "usd" priceFromJson).bind fun usd =>
      (optField l "usd_foil" priceFromJson).bind fun usd_foil =>
      (optField l "eur" priceFromJson).bind fun eur =>
      (optField l "tix" priceFromJson).bind fun tix =>
      .ok ⟨usd, usd_foil, eur, tix⟩
  | _ => .error (.invalidType "Prices")


/-- Contains URIs to sites where this card can be purchased. -/
structure PurchaseUris where
  tcgplayer : Option Uri
  cardmarket : Option Uri
  cardhoarder : Option Uri
  deriving DecidableEq


/-- Deserialization of `PurchaseUris`. -/
def purchaseUrisFromJson : Json → Except DErr PurchaseUris
  | .obj l =>
      (optField l "tcgplayer" uriFromJson).bind fun tcgplayer =>
      (optField l "cardmarket" uriFromJson).bind fun cardmarket =>
      (optField l "cardhoarder" uriFromJson).bind fun cardhoarder =>
      .ok ⟨tcgplayer, cardmarket, cardhoarder⟩
  | _ => .error (.invalidType "PurchaseUris")


/-- Contains URIs to this card on related sites. -/
structure RelatedUris where
  tcgplayer_decks : Option Uri
  edhrec : Option Uri
  mtgtop8 : Option Uri
  deriving DecidableEq


/-- Deserialization of `RelatedUris`. -/
def relatedUrisFromJson : Json → Except DErr RelatedUris
  | .obj l =>
      (optField l "tcgplayer_decks" uriFromJson).bind fun tcgplayer_decks =>
      (optField l "edhrec" uriFromJson).bind fun edhrec =>
      (optField l "mtgtop8" uriFromJson).bind fun mtgtop8 =>
      .ok ⟨tcgplayer_decks, edhrec, mtgtop8⟩
  | _ => .error (.invalidType "RelatedUris")


/-- Card face object (the struct `CardFace` of src/types/card.rs): required
fields `mana_cost`, `name`, `type_line`; all others optional. -/
structure CardFace where
  artist : Option String
  color_indicator : Option (Finset Color)
  colors : Option (Finset Color)
  flavor_text : Option String
  illustration_id : Option Uuid
  image_uris : Option ImageUris
  loyalty : Option String
  mana_cost : String
  name : String
  oracle_text : Option String
  power : Option String
  printed_name : Option String
  printed_text : Option String
  printed_type_line : Option String
  toughness : Option String
  type_line : String
  watermark : Option String
  deriving DecidableEq


/-- Deserialization of `CardFace`. -/
def cardFaceFromJson : Json → Except DErr CardFace
  | .obj l =>
      (optField l "artist" strFromJson).bind fun artist =>
      (optField l "color_indicator" colorSetFromJson).bind fun color_indicator =>
      (optField l "colors" colorSetFromJson).bind fun colors =>
      (optField l "flavor_text" strFromJson).bind fun flavor_text =>
      (optField l "illustration_id" uuidFromJson).bind fun illustration_id =>
      (optField l "image_uris" imageUrisFromJson).bind fun image_uris =>
      (optField l "loyalty" strFromJson).bind fun loyalty =>
      (reqField l "mana_cost" strFromJson).bind fun mana_cost =>
      (reqField l "name" strFromJson).bind fun name =>
      (optField l "oracle_text" strFromJson).bind fun oracle_text =>
      (optField l "power" strFromJson).bind fun power =>
      (optField l "printed_name" strFromJson).bind fun printed_name =>
      (optField l "printed_text" strFromJson).bind fun printed_text =>
      (optField l "printed_type_line" strFromJson).bind fun printed_type_line =>
      (optField l "toughness" strFromJson).bind fun toughness =>
      (reqField l "type_line" strFromJson).bind fun type_line =>
      (optField l "watermark" strFromJson).bind fun watermark =>
      .ok ⟨artist, color_indicator, colors, flavor_text, illustration_id,
           image_uris, loyalty, mana_cost, name, oracle_text, power,
           printed_name, printed_text, printed_type_line, toughness,
           type_line, watermark⟩
  | _ => .error (.invalidType "CardFace")


/-- Related card object (the struct `RelatedCard` of src/types/card.rs):
all five fields required. -/
structure RelatedCard where
  id : Uuid
  component : String
  name : String
  type_line : String
  uri : Uri
  deriving DecidableEq


/-- Deserialization of `RelatedCard`. -/
def relatedCardFromJson : Json → Except DErr RelatedCard
  | .obj l =>
      (reqField l "id" uuidFromJson).bind fun id =>
      (reqField l "component" strFromJson).bind fun component =>
      (reqField l "name" strFromJson).bind fun name =>
      (reqField l "type_line" strFromJson).bind fun type_line =>
      (reqField l "uri" uriFromJson).bind fun uri =>
      .ok ⟨id, component, name, type_line, uri⟩
  | _ => .error (.invalidType "RelatedCard")


/-- Primary card object, field for field as src/types/card.rs declares it.
Note two declarations that are verified under C7: `all_parts` is typed
`Option<Vec<CardFace>>` and the field read from the wire is `card_face`
(typed `Option<Vec<RelatedCard>>`), exactly as in the source. -/
structure Card where
  arena_id : Option Nat
  id : Uuid
  lang : String
  mtgo_id : Option Nat
  mtgo_foil_id : Option Nat
  multiverse_ids : Option (List Nat)
  tcgplayer_id : Option Nat
  oracle_id : Uuid
  prints_search_uri : Uri
  rulings_uri : Uri
  scryfall_uri : Uri
  uri : Uri
  all_parts : Option (List CardFace)
  card_face : Option (List RelatedCard)
  cmc : Nat
  colors : Option (Finset Color)
  color_identity : Finset Color
  color_indicator : Option (Finset Color)
  edhrec_rank : Option Nat
  foil : Bool
  layout : Layout
  legalities : Legalities
  loyalty : Option String
  mana_cost : Option String
  name : String
  nonfoil : Bool
  oracle_text : Option String
  oversized : Bool
  power : Option String
  reserved : Bool
  toughness : Option String
  type_line : String
  artist : Option String
  booster : Bool
  border_color : String
  card_back_id : Uuid
  collector_number : String
  digital : Bool
  flavor_text : Option String
  frame_effect : Option FrameEffect
  frame : Frame
  full_art : Bool
  games : List Game
  highres_image : Bool
  illustration_id : Option Uuid
  image_uris : Option ImageUris
  prices : Prices
  printed_name : Option String
  printed_text : Option String
  printed_type_line : Option String
  promo : Bool
  promo_types : List String
  purchase_uris : PurchaseUris
  rarity : Rarity
  related_uris : RelatedUris
  released_at : SysTime
  reprint : Bool
  scryfall_set_uri : Uri
  set_name : String
  set_search_uri : Uri
  set_type : String
  set_uri : String
  set : String
  story_spotlight : Bool
  textless : Bool
  variation : Bool
  variation_of : Option Uuid
  watermark : Option String
  deriving DecidableEq


/-- Deserialization of `Card`: every field of the struct, in declaration order;
fields not typed `Option` are required. -/
def cardFromJson : Json → Except DErr Card
  | .obj l =>
      (optField l "arena_id" u32FromJson).bind fun arena_id =>
      (reqField l "id" uuidFromJson).bind fun id =>
      (reqField l "lang" strFromJson).bind fun lang =>
      (optField l "mtgo_id" u32FromJson).bind fun mtgo_id =>
      (optField l "mtgo_foil_id" u32FromJson).bind fun mtgo_foil_id =>
      (optField l "multiverse_ids" (vecFromJson u32FromJson)).bind fun multiverse_ids =>
      (optField l "tcgplayer_id" u32FromJson).bind fun tcgplayer_id =>
      (reqField l "oracle_id" uuidFromJson).bind fun oracle_id =>
      (reqField l "prints_search_uri" uriFromJson).bind fun prints_search_uri =>
      (reqField l "rulings_uri" uriFromJson).bind fun rulings_uri =>
      (reqField l "scryfall_uri" uriFromJson).bind fun scryfall_uri =>
      (reqField l "uri" uriFromJson).bind fun uri =>
      (optField l "all_parts" (vecFromJson cardFaceFromJson)).bind fun all_parts =>
      (optField l "card_face" (vecFromJson relatedCardFromJson)).bind fun card_face =>
      (reqField l "cmc" u32FromJson).bind fun cmc =>
      (optField l "colors" colorSetFromJson).bind fun colors =>
      (reqField l "color_identity" colorSetFromJson).bind fun color_identity =>
      (optField l "color_indicator" colorSetFromJson).bind fun color_indicator =>
      (optField l "edhrec_rank" u32FromJson).bind fun edhrec_rank =>
      (reqField l "foil" boolFromJson).bind fun foil =>
      (reqField l "layout" layoutFromJson).bind fun layout =>
      (reqField l "legalities" legalitiesFromJson).bind fun legalities =>
      (optField l "loyalty" strFromJson).bind fun loyalty =>
      (optField l "mana_cost" strFromJson).bind fun mana_cost =>
      (reqField l "name" strFromJson).bind fun name =>
      (reqField l "nonfoil" boolFromJson).bind fun nonfoil =>
      (optField l "oracle_text" strFromJson).bind fun oracle_text =>
      (reqField l "oversized" boolFromJson).bind fun oversized =>
      (optField l "power" strFromJson).bind fun power =>
      (reqField l "reserved" boolFromJson).bind fun reserved =>
      (optField l "toughness" strFromJson).bind fun toughness =>
      (reqField l "type_line" strFromJson).bind fun type_line =>
      (optField l "artist" strFromJson).bind fun artist =>
      (reqField l "booster" boolFromJson).bind fun booster =>
      (reqField l "border_color" strFromJson).bind fun border_color =>
      (reqField l "card_back_id" uuidFromJson).bind fun card_back_id =>
      (reqField l "collector_number" strFromJson).bind fun collector_number =>
      (reqField l "digital" boolFromJson).bind fun digital =>
      (optField l "flavor_text" strFromJson).bind fun flavor_text =>
      (optField l "frame_effect" frameEffectFromJson).bind fun frame_effect =>
      (reqField l "frame" frameFromJson).bind fun frame =>
      (reqField l "full_art" boolFromJson).bind fun full_art =>
      (reqField l "games" (vecFromJson gameFromJson)).bind fun games =>
      (reqField l "highres_image" boolFromJson).bind fun highres_image =>
      (optField l "illustration_id" uuidFromJson).bind fun illustration_id =>
      (optField l "image_uris" imageUrisFromJson).bind fun image_uris =>
      (reqField l "prices" pricesFromJson).bind fun prices =>
      (optField l "printed_name" strFromJson).bind fun printed_name =>
      (optField l "printed_text" strFromJson).bind fun printed_text =>
      (optField l "printed_type_line" strFromJson).bind fun printed_type_line =>
      (reqField l "promo" boolFromJson).bind fun promo =>
      (reqField l "promo_types" (vecFromJson strFromJson)).bind fun promo_types =>
      (reqField l "purchase_uris" purchaseUrisFromJson).bind fun purchase_uris =>
      (reqField l "rarity" rarityFromJson).bind fun rarity =>
      (reqField l "related_uris" relatedUrisFromJson).bind fun related_uris =>
      (reqField l "released_at" sysTimeFromJson).bind fun released_at =>
      (reqField l "reprint" boolFromJson).bind fun reprint =>
      (reqField l "scryfall_set_uri" uriFromJson).bind fun scryfall_set_uri =>
      (reqField l "set_name" strFromJson).bind fun set_name =>
      (reqField l "set_search_uri" uriFromJson).bind fun set_search_uri =>
      (reqField l "set_type" strFromJson).bind fun set_type =>
      (reqField l "set_uri" strFromJson).bind fun set_uri =>
      (reqField l "set" strFromJson).bind fun set =>
      (reqField l "story_spotlight" boolFromJson).bind fun story_spotlight =>
      (reqField l "textless" boolFromJson).bind fun textless =>
      (reqField l "variation" boolFromJson).bind fun variation =>
      (optField l "variation_of" uuidFromJson).bind fun variation_of =>
      (optField l "watermark" strFromJson).bind fun watermark =>
      .ok ⟨arena_id, id, lang, mtgo_id, mtgo_foil_id, multiverse_ids,
           tcgplayer_id, oracle_id, prints_search_uri, rulings_uri,
           scryfall_uri, uri, all_parts, card_face, cmc, colors,
           color_identity, color_indicator, edhrec_rank, foil, layout,
           legalities, loyalty, mana_cost, name, nonfoil, oracle_text,
           oversized, power, reserved, toughness, type_line, artist, booster,
           border_color, card_back_id, collector_number, digital,
           flavor_text, frame_effect, frame, full_art, games, highres_image,
           illustration_id, image_uris, prices, printed_name, printed_text,
           printed_type_line, promo, promo_types, purchase_uris, rarity,
           related_uris, released_at, reprint, scryfall_set_uri, set_name,
           set_search_uri, set_type, set_uri, set, story_spotlight, textless,
           variation, variation_of, watermark⟩
  | _ => .error (.invalidType "Card")


/-- A type-generic List object (src/types/list.rs). -/
structure ListE (α : Type) where
  data : List α
  has_more : Bool
  next_page : Option Uri
  total_card : Option Nat
  warnings : Option (List String)
  deriving DecidableEq


/-- Deserialization of `List<T>`, parameterized by the element deserializer
(`data` and `has_more` required; the rest optional). -/
def listFromJson (p : Json → Except DErr α) : Json → Except DErr (ListE α)
  | .obj l =>
      (reqField l "data" (vecFromJson p)).bind fun data =>
      (reqField l "has_more" boolFromJson).bind fun has_more =>
      (optField l "next_page" uriFromJson).bind fun next_page =>
      (optField l "total_card" u32FromJson).bind fun total_card =>
      (optField l "warnings" (vecFromJson strFromJson)).bind fun warnings =>
      .ok ⟨data, has_more, next_page, total_card, warnings⟩
  | _ => .error (.invalidType "List")


/-- A card-specific List object (`CardList`). -/
def cardListFromJson : Json → Except DErr (ListE Card) :=
  listFromJson cardFromJson


/-! ## Generic facts about the deserialization combinators -/

/-- Whether a deserializer outcome is a failure. -/
def eIsErr : Except DErr α → Bool
  | .error _ => true
  | .ok _ => false


/-- Whether a deserializer outcome is a success. -/
def eIsOk : Except DErr α → Bool
  | .error _ => false
  | .ok _ => true


/-! ## C9: value equality of parse results and the NaN price exception

Rust compares parse results with derived `PartialEq`; on `Price(f64)` that is
IEEE-754 `==`, under which NaN is unequal to itself.  `fvalBeq` transcribes
that comparison; `pricesBeq` is the derived `PartialEq` of `Prices`. -/

/-- IEEE-754 `==` on parsed f64 values: NaN equals nothing, not even
itself. -/
def fvalBeq : FVal → FVal → Bool
  | .finite a, .finite b => a == b
  | .inf a, .inf b => a == b
  | _, _ => false


/-- Derived `PartialEq` of `Price`. -/
def priceBeq (a b : Price) : Bool := fvalBeq a.val b.val


/-- Lifted `PartialEq` of `Option<Price>`. -/
def optPriceBeq : Option Price → Option Price → Bool
  | none, none => true
  | some a, some b => priceBeq a b
  | _, _ => false


/-- Derived `PartialEq` of `Prices`. -/
def pricesBeq (a b : Prices) : Bool :=
  optPriceBeq a.usd b.usd && optPriceBeq a.usd_foil b.usd_foil &&
  optPriceBeq a.eur b.eur && optPriceBeq a.tix b.tix


/-- Whether an optional price is NaN. -/
def priceIsNan : Option Price → Bool
  | some p => p.val.isNan
  | none => false


/-- Whether any price of a `Prices` record is NaN. -/
def pricesHasNan (a : Prices) : Bool :=
  priceIsNan a.usd || priceIsNan a.usd_foil || priceIsNan a.eur || priceIsNan a.tix


/-! ## C2: the strings `Price` accepts are exactly Rust's f64 literals

The grammar below restates the documented `f64: FromStr` grammar
declaratively (existential decompositions, following the words of the
amended claim); the equivalence theorem relates it to the parser `f64Core`
that was transcribed from the parsing code. -/

/-- An optional sign. -/
def IsSign (sg : List Char) : Prop := sg = [] ∨ sg = ['+'] ∨ sg = ['-']


/-- All characters are decimal digits. -/
def AllDigits (l : List Char) : Prop := ∀ c ∈ l, isDigit c = true


/-- What may follow the mantissa: nothing, or `e|E`, an optional sign and at
least one digit. -/
def IsExpTail (ex : List Char) : Prop :=
  ex = [] ∨ ∃ e sg ds, ex = e :: (sg ++ ds) ∧ (e = 'e' ∨ e = 'E') ∧
    IsSign sg ∧ ds ≠ [] ∧ AllDigits ds


/-- An unsigned number: digits, or digits around a decimal point with at
least one digit present, each followed by an optional exponent. -/
def IsNumTail (cs : List Char) : Prop :=
  (∃ ds ex, cs = ds ++ ex ∧ ds ≠ [] ∧ AllDigits ds ∧ IsExpTail ex) ∨
  (∃ ip fp ex, cs = ip ++ '.' :: (fp ++ ex) ∧ AllDigits ip ∧ AllDigits fp ∧
    (ip ≠ [] ∨ fp ≠ []) ∧ IsExpTail ex)


/-- The case-insensitive special literals `inf`, `infinity`, `nan`. -/
def IsSpecialTail (cs : List Char) : Prop :=
  cs.map Char.toLower = "inf".data ∨ cs.map Char.toLower = "infinity".data ∨
  cs.map Char.toLower = "nan".data


/-- Rust's documented f64 literal grammar: an optional sign followed by a
number or a special literal. -/
def F64Lit (s : String) : Prop :=
  ∃ sg rest, s.data = sg ++ rest ∧ IsSign sg ∧
    (IsNumTail rest ∨ IsSpecialTail rest)


/-! ## C3: the strings `Uri` accepts are exactly HTTP request targets

The grammar below restates, declaratively, the four request-target forms the
http crate's parser admits; the equivalence theorem relates it to the
transcribed parser `uriCore`.  A fragment (`#` and everything after it) is
dropped, so the origin and absolute forms carry an explicit dropped rest. -/

/-- Origin-form: a string starting with `/` whose pre-fragment part is made
of URI characters. -/
def IsOriginForm (cs : List Char) : Prop :=
  ∃ kept rest, cs = kept ++ rest ∧ kept.head? = some '/' ∧
    kept.all isUriChar = true ∧ (rest = [] ∨ rest.head? = some '#')


/-- Authority-form: a whole-string authority, no scheme. -/
def IsAuthorityForm (cs : List Char) : Prop :=
  cs ≠ [] ∧ cs.all isAuthChar = true


/-- Absolute-form: `scheme://authority` followed by an optional
path-and-query and an optional dropped fragment. -/
def IsAbsoluteForm (cs : List Char) : Prop :=
  ∃ sch auth kept rest,
    cs = sch ++ ':' :: '/' :: '/' :: (auth ++ (kept ++ rest)) ∧
    sch ≠ [] ∧ sch.all isSchemeChar = true ∧
    auth ≠ [] ∧ auth.all isAuthChar = true ∧
    kept.all isUriChar = true ∧
    (kept = [] ∨ kept.head? = some '/' ∨ kept.head? = some '?') ∧
    (rest = [] ∨ rest.head? = some '#')


/-- The request-target forms the http crate accepts. -/
def IsRequestTarget (cs : List Char) : Prop :=
  cs = ['*'] ∨ IsOriginForm cs ∨ IsAuthorityForm cs ∨ IsAbsoluteForm cs


/-- The shape invariants of every value `uriCore` produces; each disjunct is
one parser branch. -/
def ValidUri (u : HttpUri) : Prop :=
  (u = ⟨none, "", "*"⟩) ∨
  (u.scheme = none ∧ u.authority = "" ∧ u.pathAndQuery.data.head? = some '/' ∧
    u.pathAndQuery.data.all isUriChar = true) ∨
  (u.scheme = none ∧ u.pathAndQuery = "" ∧ u.authority.data ≠ [] ∧
    u.authority.data ≠ ['*'] ∧ u.authority.data.all isAuthChar = true) ∨
  (∃ sch, u.scheme = some sch ∧ sch.data ≠ [] ∧ sch.data.all isSchemeChar = true ∧
    u.authority.data ≠ [] ∧ u.authority.data.all isAuthChar = true ∧
    u.pathAndQuery.data.all isUriChar = true ∧
    (u.pathAndQuery.data = [] ∨ u.pathAndQuery.data.head? = some '/' ∨
      u.pathAndQuery.data.head? = some '?'))


/-- A canonical UUID string for the concrete wire objects below. -/
def uuidEx : String := "00000000-0000-0000-0000-000000000000"


/-- A URI string for the concrete wire objects below. -/
def uriEx : String := "https://a.example/x"


/-- A fully populated Legalities wire object. -/
def legalitiesJsonEx : Json :=
  Json.obj [("standard", Json.str "legal"), ("future", Json.str "legal"),
    ("modern", Json.str "legal"), ("legacy", Json.str "legal"),
    ("pauper", Json.str "legal"), ("vintage", Json.str "legal"),
    ("penny", Json.str "legal"), ("commander", Json.str "legal"),
    ("brawl", Json.str "legal"), ("duel", Json.str "legal"),
    ("oldschool", Json.str "legal")]


/-- A SystemTime wire object. -/
def sysTimeJsonEx : Json :=
  Json.obj [("secs_since_epoch", Json.num 0), ("nanos_since_epoch", Json.num 0)]


/-- A Card wire object that carries exactly the 43 required fields, each with
a valid value, and none of the optional fields. -/
def cardReqJson : List (String × Json) :=
  [("id", Json.str uuidEx), ("lang", Json.str "en"),
   ("oracle_id", Json.str uuidEx), ("prints_search_uri", Json.str uriEx),
   ("rulings_uri", Json.str uriEx), ("scryfall_uri", Json.str uriEx),
   ("uri", Json.str uriEx), ("cmc", Json.num 3),
   ("color_identity", Json.arr [Json.str "W"]), ("foil", Json.bool false),
   ("layout", Json.str "normal"), ("legalities", legalitiesJsonEx),
   ("name", Json.str "Name"), ("nonfoil", Json.bool true),
   ("oversized", Json.bool false), ("reserved", Json.bool false),
   ("type_line", Json.str "Instant"), ("booster", Json.bool true),
   ("border_color", Json.str "black"), ("card_back_id", Json.str uuidEx),
   ("collector_number", Json.str "1"), ("digital", Json.bool false),
   ("frame", Json.str "2015"), ("full_art", Json.bool false),
   ("games", Json.arr [Json.str "paper"]), ("highres_image", Json.bool true),
   ("prices", Json.obj []), ("promo", Json.bool false),
   ("promo_types", Json.arr []), ("purchase_uris", Json.obj []),
   ("rarity", Json.str "rare"), ("related_uris", Json.obj []),
   ("released_at", sysTimeJsonEx), ("reprint", Json.bool false),
   ("scryfall_set_uri", Json.str uriEx), ("set_name", Json.str "SetName"),
   ("set_search_uri", Json.str uriEx), ("set_type", Json.str "expansion"),
   ("set_uri", Json.str uriEx), ("set", Json.str "khm"),
   ("story_spotlight", Json.bool false), ("textless", Json.bool false),
   ("variation", Json.bool false)]


/-- A Card wire object that carries exactly the eight fields the spec calls
required (identifier, name, layout, legality set, rarity, type line, release
date, set code), each with a valid value. -/
def cardSpecEightJson : List (String × Json) :=
  [("id", Json.str uuidEx), ("name", Json.str "Name"),
   ("layout", Json.str "normal"), ("legalities", legalitiesJsonEx),
   ("rarity", Json.str "rare"), ("type_line", Json.str "Instant"),
   ("released_at", sysTimeJsonEx), ("set", Json.str "khm")]


/-- A valid RelatedCard wire object (the five required fields). -/
def relatedCardJsonEx : Json :=
  Json.obj [("id", Json.str uuidEx), ("component", Json.str "token"),
    ("name", Json.str "X"), ("type_line", Json.str "Token"),
    ("uri", Json.str uriEx)]


/-- The wire fields the Card parser requires: every field of the struct not
typed `Option`, in declaration order. -/
def cardRequiredFields : List String :=
  ["id", "lang", "oracle_id", "prints_search_uri", "rulings_uri",
   "scryfall_uri", "uri", "cmc", "color_identity", "foil", "layout",
   "legalities", "name", "nonfoil", "oversized", "reserved", "type_line",
   "booster", "border_color", "card_back_id", "collector_number", "digital",
   "frame", "full_art", "games", "highres_image", "prices", "promo",
   "promo_types", "purchase_uris", "rarity", "related_uris", "released_at",
   "reprint", "scryfall_set_uri", "set_name", "set_search_uri", "set_type",
   "set_uri", "set", "story_spotlight", "textless", "variation"]


/-!
## Theorems

Everything below is proof: supporting lemmas about the combinators and
parsers above, and the claim theorems with their witnesses and
counterexamples.
-/

theorem eIsErr_eq_true {x : Except DErr α} : eIsErr x = true ↔ ∃ e, x = .error e := by
  cases x <;> simp [eIsErr]


theorem eIsOk_eq_true {x : Except DErr α} : eIsOk x = true ↔ ∃ a, x = .ok a := by
  cases x <;> simp [eIsOk]


theorem ebind_ok {x : Except DErr α} {f : α → Except DErr β} {b : β} :
    x.bind f = .ok b ↔ ∃ a, x = .ok a ∧ f a = .ok b := by
  cases x <;> simp [Except.bind]


theorem ebind_isErr_left {x : Except DErr α} {f : α → Except DErr β} :
    eIsErr x = true → eIsErr (x.bind f) = true := by
  cases x <;> simp [Except.bind, eIsErr]


theorem ebind_isErr_ok {x : Except DErr α} {f : α → Except DErr β} {a : α} :
    x = .ok a → eIsErr (f a) = true → eIsErr (x.bind f) = true := by
  intro h hf
  subst h
  simpa [Except.bind] using hf


theorem reqField_ok {l : List (String × Json)} {n : String}
    {p : Json → Except DErr α} {v : α} :
    reqField l n p = .ok v → ∃ j, getField l n = .ok (some j) ∧ p j = .ok v := by
  intro h
  rw [reqField, ebind_ok] at h
  obtain ⟨o, ho, hp⟩ := h
  cases o with
  | none => exact absurd hp (by simp)
  | some j => exact ⟨j, ho, hp⟩


theorem reqField_missing {l : List (String × Json)} {n : String}
    {p : Json → Except DErr α} :
    getField l n = .ok none → reqField l n p = .error (.missingField n) := by
  intro h
  rw [reqField, h]
  rfl


theorem optField_missing {l : List (String × Json)} {n : String}
    {p : Json → Except DErr α} :
    getField l n = .ok none → optField l n p = .ok none := by
  intro h
  rw [optField, h]
  rfl


theorem optField_present_isErr {l : List (String × Json)} {n : String}
    {p : Json → Except DErr α} {j : Json} :
    getField l n = .ok (some j) → j ≠ .null → eIsErr (p j) = true →
    eIsErr (optField l n p) = true := by
  intro h hnull hp
  rw [optField, h]
  obtain ⟨e, he⟩ := eIsErr_eq_true.mp hp
  cases j <;> simp_all [Except.bind, Except.map, eIsErr]


/-! ## C1: the enumeration tag tables are exact bijections -/

/-- Supporting fact for the Color table: acceptance is exactly the tag table. -/
theorem colorFromWire_iff (s : String) (c : Color) :
    colorFromWire s = some c ↔ s = colorTag c := by
  constructor
  · intro h
    rw [colorFromWire] at h
    by_cases h1 : s = "W"
    · rw [if_pos h1] at h
      injection h with hv
      subst hv
      exact h1
    rw [if_neg h1] at h
    by_cases h2 : s = "U"
    · rw [if_pos h2] at h
      injection h with hv
      subst hv
      exact h2
    rw [if_neg h2] at h
    by_cases h3 : s = "B"
    · rw [if_pos h3] at h
      injection h with hv
      subst hv
      exact h3
    rw [if_neg h3] at h
    by_cases h4 : s = "R"
    · rw [if_pos h4] at h
      injection h with hv
      subst hv
      exact h4
    rw [if_neg h4] at h
    by_cases h5 : s = "G"
    · rw [if_pos h5] at h
      injection h with hv
      subst hv
      exact h5
    rw [if_neg h5] at h
    exact Option.noConfusion h
  · intro h
    subst h
    cases c <;> decide


/-- Supporting fact for the Layout table. -/
theorem layoutFromWire_iff (s : String) (c : Layout) :
    layoutFromWire s = some c ↔ s = layoutTag c := by
  constructor
  · intro h
    rw [layoutFromWire] at h
    by_cases h1 : s = "normal"
    · rw [if_pos h1] at h
      injection h with hv
      subst hv
      exact h1
    rw [if_neg h1] at h
    by_cases h2 : s = "split"
    · rw [if_pos h2] at h
      injection h with hv
      subst hv
      exact h2
    rw [if_neg h2] at h
    by_cases h3 : s = "flip"
    · rw [if_pos h3] at h
      injection h with hv
      subst hv
      exact h3
    rw [if_neg h3] at h
    by_cases h4 : s = "transform"
    · rw [if_pos h4] at h
      injection h with hv
      subst hv
      exact h4
    rw [if_neg h4] at h
    by_cases h5 : s = "meld"
    · rw [if_pos h5] at h
      injection h with hv
      subst hv
      exact h5
    rw [if_neg h5] at h
    by_cases h6 : s = "leveler"
    · rw [if_pos h6] at h
      injection h with hv
      subst hv
      exact h6
    rw [if_neg h6] at h
    by_cases h7 : s = "saga"
    · rw [if_pos h7] at h
      injection h with hv
      subst hv
      exact h7
    rw [if_neg h7] at h
    by_cases h8 : s = "planar"
    · rw [if_pos h8] at h
      injection h with hv
      subst hv
      exact h8
    rw [if_neg h8] at h
    by_cases h9 : s = "scheme"
    · rw [if_pos h9] at h
      injection h with hv
      subst hv
      exact h9
    rw [if_neg h9] at h
    by_cases h10 : s = "vanguard"
    · rw [if_pos h10] at h
      injection h with hv
      subst hv
      exact h10
    rw [if_neg h10] at h
    by_cases h11 : s = "token"
    · rw [if_pos h11] at h
      injection h with hv
      subst hv
      exact h11
    rw [if_neg h11] at h
    by_cases h12 : s = "double_faced_token"
    · rw [if_pos h12] at h
      injection h with hv
      subst hv
      exact h12
    rw [if_neg h12] at h
    by_cases h13 : s = "emblem"
    · rw [if_pos h13] at h
      injection h with hv
      subst hv
      exact h13
    rw [if_neg h13] at h
    by_cases h14 : s = "augment"
    · rw [if_pos h14] at h
      injection h with hv
      subst hv
      exact h14
    rw [if_neg h14] at h
    by_cases h15 : s = "host"
    · rw [if_pos h15] at h
      injection h with hv
      subst hv
      exact h15
    rw [if_neg h15] at h
    exact Option.noConfusion h
  · intro h
    subst h
    cases c <;> decide


/-- Supporting fact for the FrameEffect table. -/
theorem frameEffectFromWire_iff (s : String) (c : FrameEffect) :
    frameEffectFromWire s = some c ↔ s = frameEffectTag c := by
  constructor
  · intro h
    rw [frameEffectFromWire] at h
    by_cases h1 : s = "legendary"
    · rw [if_pos h1] at h
      injection h with hv
      subst hv
      exact h1
    rw [if_neg h1] at h
    by_cases h2 : s = "miracle"
    · rw [if_pos h2] at h
      injection h with hv
      subst hv
      exact h2
    rw [if_neg h2] at h
    by_cases h3 : s = "nyxtouched"
    · rw [if_pos h3] at h
      injection h with hv
      subst hv
      exact h3
    rw [if_neg h3] at h
    by_cases h4 : s = "draft"
    · rw [if_pos h4] at h
      injection h with hv
      subst hv
      exact h4
    rw [if_neg h4] at h
    by_cases h5 : s = "devoid"
    · rw [if_pos h5] at h
      injection h with hv
      subst hv
      exact h5
    rw [if_neg h5] at h
    by_cases h6 : s = "tombstone"
    · rw [if_pos h6] at h
      injection h with hv
      subst hv
      exact h6
    rw [if_neg h6] at h
    by_cases h7 : s = "colorshifted"
    · rw [if_pos h7] at h
      injection h with hv
      subst hv
      exact h7
    rw [if_neg h7] at h
    by_cases h8 : s = "sunmoondfc"
    · rw [if_pos h8] at h
      injection h with hv
      subst hv
      exact h8
    rw [if_neg h8] at h
    by_cases h9 : s = "compasslanddfc"
    · rw [if_pos h9] at h
      injection h with hv
      subst hv
      exact h9
    rw [if_neg h9] at h
    by_cases h10 : s = "originpwdfc"
    · rw [if_pos h10] at h
      injection h with hv
      subst hv
      exact h10
    rw [if_neg h10] at h
    by_cases h11 : s = "mooneldrazidfc"
    · rw [if_pos h11] at h
      injection h with hv
      subst hv
      exact h11
    rw [if_neg h11] at h
    exact Option.noConfusion h
  · intro h
    subst h
    cases c <;> decide


/-- Supporting fact for the Frame table. -/
theorem frameFromWire_iff (s : String) (c : Frame) :
    frameFromWire s = some c ↔ s = frameTag c := by
  constructor
  · intro h
    rw [frameFromWire] at h
    by_cases h1 : s = "1993"
    · rw [if_pos h1] at h
      injection h with hv
      subst hv
      exact h1
    rw [if_neg h1] at h
    by_cases h2 : s = "1997"
    · rw [if_pos h2] at h
      injection h with hv
      subst hv
      exact h2
    rw [if_neg h2] at h
    by_cases h3 : s = "2003"
    · rw [if_pos h3] at h
      injection h with hv
      subst hv
      exact h3
    rw [if_neg h3] at h
    by_cases h4 : s = "2015"
    · rw [if_pos h4] at h
      injection h with hv
      subst hv
      exact h4
    rw [if_neg h4] at h
    by_cases h5 : s = "future"
    · rw [if_pos h5] at h
      injection h with hv
      subst hv
      exact h5
    rw [if_neg h5] at h
    exact Option.noConfusion h
  · intro h
    subst h
    cases c <;> decide


/-- Supporting fact for the Game table. -/
theorem gameFromWire_iff (s : String) (c : Game) :
    gameFromWire s = some c ↔ s = gameTag c := by
  constructor
  · intro h
    rw [gameFromWire] at h
    by_cases h1 : s = "paper"
    · rw [if_pos h1] at h
      injection h with hv
      subst hv
      exact h1
    rw [if_neg h1] at h
    by_cases h2 : s = "arena"
    · rw [if_pos h2] at h
      injection h with hv
      subst hv
      exact h2
    rw [if_neg h2] at h
    by_cases h3 : s = "mtgo"
    · rw [if_pos h3] at h
      injection h with hv
      subst hv
      exact h3
    rw [if_neg h3] at h
    exact Option.noConfusion h
  · intro h
    subst h
    cases c <;> decide


/-- Supporting fact for the Rarity table. -/
theorem rarityFromWire_iff (s : String) (c : Rarity) :
    rarityFromWire s = some c ↔ s = rarityTag c := by
  constructor
  · intro h
    rw [rarityFromWire] at h
    by_cases h1 : s = "common"
    · rw [if_pos h1] at h
      injection h with hv
      subst hv
      exact h1
    rw [if_neg h1] at h
    by_cases h2 : s = "uncommon"
    · rw [if_pos h2] at h
      injection h with hv
      subst hv
      exact h2
    rw [if_neg h2] at h
    by_cases h3 : s = "rare"
    · rw [if_pos h3] at h
      injection h with hv
      subst hv
      exact h3
    rw [if_neg h3] at h
    by_cases h4 : s = "mythic"
    · rw [if_pos h4] at h
      injection h with hv
      subst hv
      exact h4
    rw [if_neg h4] at h
    exact Option.noConfusion h
  · intro h
    subst h
    cases c <;> decide


/-- Supporting fact for the Legality table. -/
theorem legalityFromWire_iff (s : String) (c : Legality) :
    legalityFromWire s = some c ↔ s = legalityTag c := by
  constructor
  · intro h
    rw [legalityFromWire] at h
    by_cases h1 : s = "not_legal"
    · rw [if_pos h1] at h
      injection h with hv
      subst hv
      exact h1
    rw [if_neg h1] at h
    by_cases h2 : s = "legal"
    · rw [if_pos h2] at h
      injection h with hv
      subst hv
      exact h2
    rw [if_neg h2] at h
    by_cases h3 : s = "banned"
    · rw [if_pos h3] at h
      injection h with hv
      subst hv
      exact h3
    rw [if_neg h3] at h
    by_cases h4 : s = "restricted"
    · rw [if_pos h4] at h
      injection h with hv
      subst hv
      exact h4
    rw [if_neg h4] at h
    exact Option.noConfusion h
  · intro h
    subst h
    cases c <;> decide


/-- C1: for each enumeration mapper (Color, Layout, FrameEffect, Frame, Game,
Rarity, Legality), a wire string deserializes to a variant exactly when it is
that variant's documented tag (so each documented tag maps to exactly one
variant, matching is case-sensitive and exact, and every string outside the
tag set fails), and the tag-to-variant mapping is injective. -/
theorem c1_enum_tag_bijections :
    (∀ s c, colorFromWire s = some c ↔ s = colorTag c) ∧
    (∀ a b : Color, colorTag a = colorTag b → a = b) ∧
    (∀ s c, layoutFromWire s = some c ↔ s = layoutTag c) ∧
    (∀ a b : Layout, layoutTag a = layoutTag b → a = b) ∧
    (∀ s c, frameEffectFromWire s = some c ↔ s = frameEffectTag c) ∧
    (∀ a b : FrameEffect, frameEffectTag a = frameEffectTag b → a = b) ∧
    (∀ s c, frameFromWire s = some c ↔ s = frameTag c) ∧
    (∀ a b : Frame, frameTag a = frameTag b → a = b) ∧
    (∀ s c, gameFromWire s = some c ↔ s = gameTag c) ∧
    (∀ a b : Game, gameTag a = gameTag b → a = b) ∧
    (∀ s c, rarityFromWire s = some c ↔ s = rarityTag c) ∧
    (∀ a b : Rarity, rarityTag a = rarityTag b → a = b) ∧
    (∀ s c, legalityFromWire s = some c ↔ s = legalityTag c) ∧
    (∀ a b : Legality, legalityTag a = legalityTag b → a = b) :=
  ⟨colorFromWire_iff, by decide, layoutFromWire_iff, by decide,
   frameEffectFromWire_iff, by decide, frameFromWire_iff, by decide,
   gameFromWire_iff, by decide, rarityFromWire_iff, by decide,
   legalityFromWire_iff, by decide⟩


/-- C1 witness: the table facts applied at concrete tags: `"W"` maps to
White and only to it, the unknown tag `"xyz"` and the wrong-case tag `"w"`
fail, and `"not_legal"` maps to NotLegal. -/
theorem c1_enum_tag_bijections_witness :
    colorFromWire "W" = some Color.white ∧
    colorFromWire "xyz" = none ∧
    colorFromWire "w" = none ∧
    legalityFromWire "not_legal" = some Legality.notLegal := by
  refine ⟨(c1_enum_tag_bijections.1 "W" Color.white).mpr rfl, ?_, ?_,
    ((c1_enum_tag_bijections.2.2.2.2.2.2.2.2.2.2.2.2.1) "not_legal"
      Legality.notLegal).mpr rfl⟩
  · decide
  · decide


/-! ## C10: the color fields are unordered, duplicate-free sets -/

theorem mapExcept_ok_forall {p : Json → Except DErr α} :
    ∀ {js : List Json} {as : List α},
      mapExcept p js = .ok as ↔ List.Forall₂ (fun j a => p j = .ok a) js as := by
  intro js
  induction js with
  | nil =>
      intro as
      constructor
      · intro h
        injection h with h
        subst h
        exact List.Forall₂.nil
      · intro h
        cases h
        rfl
  | cons j js ih =>
      intro as
      constructor
      · intro h
        rw [mapExcept, ebind_ok] at h
        obtain ⟨a, ha, h⟩ := h
        rw [ebind_ok] at h
        obtain ⟨as2, has, h⟩ := h
        injection h with h
        subst h
        exact List.Forall₂.cons ha (ih.mp has)
      · intro h
        cases h with
        | cons ha htail =>
            rw [mapExcept, ebind_ok]
            refine ⟨_, ha, ?_⟩
            rw [ebind_ok]
            exact ⟨_, ih.mpr htail, rfl⟩


theorem forall₂_ok_mem_iff {p : Json → Except DErr α} {js : List Json} {as : List α}
    (h : List.Forall₂ (fun j a => p j = .ok a) js as) (a : α) :
    a ∈ as ↔ ∃ j, j ∈ js ∧ p j = .ok a := by
  induction h with
  | nil => simp
  | @cons x b xs bs hpa htail ih =>
      simp only [List.mem_cons, ih]
      constructor
      · rintro (rfl | ⟨j, hj, hja⟩)
        · exact ⟨x, Or.inl rfl, hpa⟩
        · exact ⟨j, Or.inr hj, hja⟩
      · rintro ⟨j, rfl | hj, hja⟩
        · left
          have h2 := hpa.symm.trans hja
          injection h2 with h2
          exact h2.symm
        · exact Or.inr ⟨j, hj, hja⟩


/-- C10: the wire fields deserialized through `colorSetFromJson` (Card's
`colors`, `color_identity`, `color_indicator`) are unordered sets of distinct
colors: the parsed value is the deduplicated set of the element list, two
permuted wire arrays yield equal sets, and a duplicated tag changes
nothing. -/
theorem c10_color_fields_are_sets :
    (∀ js cs, mapExcept colorFromJson js = .ok cs →
        colorSetFromJson (Json.arr js) = .ok cs.toFinset) ∧
    (∀ js1 js2 cs1 cs2, js1.Perm js2 →
        mapExcept colorFromJson js1 = .ok cs1 →
        mapExcept colorFromJson js2 = .ok cs2 →
        cs1.toFinset = cs2.toFinset) ∧
    (∀ j js, colorSetFromJson (Json.arr (j :: j :: js)) =
        colorSetFromJson (Json.arr (j :: js))) := by
  refine ⟨?_, ?_, ?_⟩
  · intro js cs h
    simp [colorSetFromJson, h, Except.map]
  · intro js1 js2 cs1 cs2 hp h1 h2
    ext a
    rw [List.mem_toFinset, List.mem_toFinset,
        forall₂_ok_mem_iff (mapExcept_ok_forall.mp h1) a,
        forall₂_ok_mem_iff (mapExcept_ok_forall.mp h2) a]
    constructor
    · rintro ⟨j, hj, hja⟩
      exact ⟨j, hp.mem_iff.mp hj, hja⟩
    · rintro ⟨j, hj, hja⟩
      exact ⟨j, hp.mem_iff.mpr hj, hja⟩
  · intro j js
    cases hj : colorFromJson j with
    | error e => simp [colorSetFromJson, mapExcept, hj, Except.bind]
    | ok c =>
        cases hjs : mapExcept colorFromJson js with
        | error e => simp [colorSetFromJson, mapExcept, hj, hjs, Except.bind]
        | ok cs =>
            simp [colorSetFromJson, mapExcept, hj, hjs, Except.bind, Except.map,
              List.toFinset_cons, Finset.insert_idem]


/-- C10 witness: a wire array with the duplicated tag `"W"` parses to the
two-element set, and the permuted array parses to the same set. -/
theorem c10_color_fields_are_sets_witness :
    colorSetFromJson (Json.arr [Json.str "W", Json.str "U", Json.str "W"]) =
      .ok ([Color.white, Color.blue, Color.white].toFinset) ∧
    [Color.white, Color.blue, Color.white].toFinset =
      [Color.blue, Color.white, Color.white].toFinset :=
  ⟨c10_color_fields_are_sets.1 _ _ (by rfl),
   c10_color_fields_are_sets.2.1 _ _ _ _
     (List.Perm.swap (Json.str "U") (Json.str "W") [Json.str "W"])
     (by rfl) (by rfl)⟩


/-! ## C4: a record fails as a whole -/

theorem ebind_isErr_all {x : Except DErr α} {f : α → Except DErr β}
    (h : ∀ a, eIsErr (f a) = true) : eIsErr (x.bind f) = true := by
  cases x with
  | error e => rfl
  | ok a => simpa [Except.bind] using h a


theorem boolFromJson_ok {j : Json} {b : Bool} (h : boolFromJson j = .ok b) :
    j = .bool b := by
  cases j <;> simp_all [boolFromJson]


/-- C4: representative instances of the all-or-nothing record discipline,
one per record shape the claim names: an optional leaf that is present but
malformed fails the whole record (Prices `usd` and `tix`, ImageUris `small`),
and a required leaf that is missing fails the whole record (Legalities
`standard` and `oldschool`, RelatedCard `name`, CardFace `mana_cost`, Card
`lang`).  The result type `Except` itself rules out partial records. -/
theorem c4_records_fail_whole :
    (∀ l v, getField l "usd" = .ok (some v) → v ≠ .null →
        eIsErr (priceFromJson v) = true →
        eIsErr (pricesFromJson (Json.obj l)) = true) ∧
    (∀ l v, getField l "tix" = .ok (some v) → v ≠ .null →
        eIsErr (priceFromJson v) = true →
        eIsErr (pricesFromJson (Json.obj l)) = true) ∧
    (∀ l v, getField l "small" = .ok (some v) → v ≠ .null →
        eIsErr (uriFromJson v) = true →
        eIsErr (imageUrisFromJson (Json.obj l)) = true) ∧
    (∀ l, getField l "standard" = .ok none →
        eIsErr (legalitiesFromJson (Json.obj l)) = true) ∧
    (∀ l, getField l "oldschool" = .ok none →
        eIsErr (legalitiesFromJson (Json.obj l)) = true) ∧
    (∀ l, getField l "name" = .ok none →
        eIsErr (relatedCardFromJson (Json.obj l)) = true) ∧
    (∀ l, getField l "mana_cost" = .ok none →
        eIsErr (cardFaceFromJson (Json.obj l)) = true) ∧
    (∀ l, getField l "lang" = .ok none →
        eIsErr (cardFromJson (Json.obj l)) = true) := by
  refine ⟨?_, ?_, ?_, ?_, ?_, ?_, ?_, ?_⟩
  · intro l v hget hnull herr
    exact ebind_isErr_left (optField_present_isErr hget hnull herr)
  · intro l v hget hnull herr
    refine ebind_isErr_all fun a1 => ebind_isErr_all fun a2 => ebind_isErr_all fun a3 => ?_
    exact ebind_isErr_left (optField_present_isErr hget hnull herr)
  · intro l v hget hnull herr
    exact ebind_isErr_left (optField_present_isErr hget hnull herr)
  · intro l hget
    refine ebind_isErr_left ?_
    rw [reqField_missing hget]
    rfl
  · intro l hget
    refine ebind_isErr_all fun a1 => ebind_isErr_all fun a2 => ebind_isErr_all fun a3 =>
      ebind_isErr_all fun a4 => ebind_isErr_all fun a5 => ebind_isErr_all fun a6 =>
      ebind_isErr_all fun a7 => ebind_isErr_all fun a8 => ebind_isErr_all fun a9 =>
      ebind_isErr_all fun a10 => ?_
    refine ebind_isErr_left ?_
    rw [reqField_missing hget]
    rfl
  · intro l hget
    refine ebind_isErr_all fun a1 => ebind_isErr_all fun a2 => ?_
    refine ebind_isErr_left ?_
    rw [reqField_missing hget]
    rfl
  · intro l hget
    refine ebind_isErr_all fun a1 => ebind_isErr_all fun a2 => ebind_isErr_all fun a3 =>
      ebind_isErr_all fun a4 => ebind_isErr_all fun a5 => ebind_isErr_all fun a6 =>
      ebind_isErr_all fun a7 => ?_
    refine ebind_isErr_left ?_
    rw [reqField_missing hget]
    rfl
  · intro l hget
    refine ebind_isErr_all fun a1 => ebind_isErr_all fun a2 => ?_
    refine ebind_isErr_left ?_
    rw [reqField_missing hget]
    rfl


/-- C4 witness: the record discipline applied at concrete wire objects: a
`Prices` object whose `usd` is the non-numeric `"abc"` fails, a `Legalities`
object missing `standard` fails, and a `Card` object missing `lang` fails. -/
theorem c4_records_fail_whole_witness :
    eIsErr (pricesFromJson (Json.obj [("usd", Json.str "abc")])) = true ∧
    eIsErr (legalitiesFromJson (Json.obj [])) = true ∧
    eIsErr (cardFromJson (Json.obj [])) = true :=
  ⟨c4_records_fail_whole.1 _ (Json.str "abc") rfl
      (fun h => Json.noConfusion h) rfl,
   c4_records_fail_whole.2.2.2.1 _ rfl,
   c4_records_fail_whole.2.2.2.2.2.2.2 _ rfl⟩


/-! ## C5: pagination state is parsed faithfully, not enforced -/

/-- C5 amended: the List parser carries the wire pagination state through
unchanged: a successful parse stores exactly the wire `has_more` boolean, and
when `next_page` is absent the parsed `next_page` is `none` — so the
protocol-violating page (`has_more` true, no `next_page`) remains
distinguishable and is never patched to `has_more = false`. -/
theorem c5_list_preserves_pagination_fields {α : Type} (p : Json → Except DErr α)
    (l : List (String × Json)) (r : ListE α)
    (h : listFromJson p (Json.obj l) = .ok r) :
    getField l "has_more" = .ok (some (Json.bool r.has_more)) ∧
    (getField l "next_page" = .ok none → r.next_page = none) := by
  rw [listFromJson, ebind_ok] at h
  obtain ⟨data, hdata, h⟩ := h
  rw [ebind_ok] at h
  obtain ⟨hm, hhm, h⟩ := h
  rw [ebind_ok] at h
  obtain ⟨np, hnp, h⟩ := h
  rw [ebind_ok] at h
  obtain ⟨tc, htc, h⟩ := h
  rw [ebind_ok] at h
  obtain ⟨w, hw, h⟩ := h
  injection h with h
  subst h
  constructor
  · obtain ⟨j, hj, hb⟩ := reqField_ok hhm
    rw [boolFromJson_ok hb] at hj
    exact hj
  · intro hnone
    rw [optField_missing hnone] at hnp
    injection hnp with h2
    exact h2.symm


/-- C5 counterexample: the protocol-violating wire object with `has_more`
true and no `next_page` parses successfully, and the parsed result has
`has_more` true with no continuation URI — so "has_more implies a
continuation URI is present in the parsed result" fails on the code. -/
theorem c5_counterexample :
    listFromJson cardFromJson
        (Json.obj [("data", Json.arr []), ("has_more", Json.bool true)]) =
      .ok ⟨[], true, none, none, none⟩ := rfl


/-- C5 witness: the faithfulness fact applied to that concrete page. -/
theorem c5_list_preserves_pagination_fields_witness :
    getField [("data", Json.arr []), ("has_more", Json.bool true)] "has_more" =
      .ok (some (Json.bool true)) ∧
    (⟨[], true, none, none, none⟩ : ListE Card).next_page = none :=
  ⟨(c5_list_preserves_pagination_fields cardFromJson
      [("data", Json.arr []), ("has_more", Json.bool true)]
      ⟨[], true, none, none, none⟩ rfl).1,
   (c5_list_preserves_pagination_fields cardFromJson
      [("data", Json.arr []), ("has_more", Json.bool true)]
      ⟨[], true, none, none, none⟩ rfl).2 rfl⟩


theorem fvalBeq_refl {v : FVal} (h : v.isNan = false) : fvalBeq v v = true := by
  cases v <;> simp_all [fvalBeq, FVal.isNan]


theorem optPriceBeq_refl {o : Option Price} (h : priceIsNan o = false) :
    optPriceBeq o o = true := by
  cases o with
  | none => rfl
  | some p => exact fvalBeq_refl h


/-- C9 amended: parsing is deterministic (the parsers are functions), and the
Rust value equality of a parse result with itself holds for every wire object
whose parsed prices contain no NaN; the NaN exception is the counterexample.
-/
theorem c9_parse_eq_without_nan (w : Json) (p : Prices)
    (h : pricesFromJson w = .ok p) (hn : pricesHasNan p = false) :
    pricesBeq p p = true := by
  obtain ⟨usd, uf, eur, tix⟩ := p
  simp only [pricesHasNan, Bool.or_eq_false_iff] at hn
  obtain ⟨⟨⟨h1, h2⟩, h3⟩, h4⟩ := hn
  simp only [pricesBeq, Bool.and_eq_true]
  exact ⟨⟨⟨optPriceBeq_refl h1, optPriceBeq_refl h2⟩, optPriceBeq_refl h3⟩,
    optPriceBeq_refl h4⟩


/-- C9 counterexample: the wire object `{"usd": "nan"}` parses, and the
parsed record compares unequal to itself under the derived `PartialEq`, so
"parse(w) == parse(w) for every wire object, including records containing
Price values" fails on the code. -/
theorem c9_counterexample :
    pricesFromJson (Json.obj [("usd", Json.str "nan")]) =
      .ok ⟨some ⟨.nan⟩, none, none, none⟩ ∧
    pricesBeq ⟨some ⟨.nan⟩, none, none, none⟩ ⟨some ⟨.nan⟩, none, none, none⟩ =
      false :=
  ⟨rfl, rfl⟩


/-- C9 witness: self-equality of the parsed `{"usd": "15.44"}` record. -/
theorem c9_parse_eq_without_nan_witness :
    pricesBeq ⟨some ⟨.finite (((1544 : ℕ) : ℚ) / ((100 : ℕ) : ℚ))⟩, none, none, none⟩
      ⟨some ⟨.finite (((1544 : ℕ) : ℚ) / ((100 : ℕ) : ℚ))⟩, none, none, none⟩ = true :=
  c9_parse_eq_without_nan (Json.obj [("usd", Json.str "15.44")]) _ rfl rfl


theorem digit_not_sign {c : Char} (h : isDigit c = true) : c ≠ '+' ∧ c ≠ '-' := by
  constructor <;> rintro rfl <;> exact absurd h (by decide)


theorem head?_some_decomp {l : List Char} {c : Char} (h : l.head? = some c) :
    l = c :: l.tail := by
  cases l with
  | nil => cases h
  | cons a t =>
      injection h with h
      rw [h]
      rfl


theorem takeDigits_spec (cs : List Char) :
    cs = (takeDigits cs).1 ++ (takeDigits cs).2 ∧
    AllDigits (takeDigits cs).1 ∧
    (∀ c, (takeDigits cs).2.head? = some c → isDigit c = false) := by
  induction cs with
  | nil =>
      refine ⟨rfl, ?_, ?_⟩
      · intro c hc
        cases hc
      · intro c hc
        cases hc
  | cons c cs ih =>
      by_cases hc : isDigit c
      · rw [takeDigits, if_pos hc]
        refine ⟨?_, ?_, ih.2.2⟩
        · calc c :: cs = c :: ((takeDigits cs).1 ++ (takeDigits cs).2) := by rw [← ih.1]
            _ = (c :: (takeDigits cs).1) ++ (takeDigits cs).2 := rfl
        · intro d hd
          rcases List.mem_cons.mp hd with rfl | hd
          · exact hc
          · exact ih.2.1 d hd
      · rw [takeDigits, if_neg hc]
        refine ⟨rfl, ?_, ?_⟩
        · intro d hd
          cases hd
        · intro d hd
          injection hd with hd
          rw [← hd]
          exact Bool.eq_false_iff.mpr hc


theorem takeDigits_append {ds rest : List Char} (hds : AllDigits ds)
    (hrest : ∀ c, rest.head? = some c → isDigit c = false) :
    takeDigits (ds ++ rest) = (ds, rest) := by
  induction ds with
  | nil =>
      cases rest with
      | nil => rfl
      | cons c cs =>
          have hc := hrest c rfl
          rw [List.nil_append, takeDigits, if_neg (Bool.eq_false_iff.mp hc)]
  | cons d ds ih =>
      have hd : isDigit d = true := hds d (List.mem_cons_self _ _)
      have hds2 : AllDigits ds := fun c hc => hds c (List.mem_cons_of_mem _ hc)
      rw [List.cons_append, takeDigits, if_pos hd, ih hds2]


theorem takeDigits_all {ds : List Char} (hds : AllDigits ds) :
    takeDigits ds = (ds, []) := by
  have h := @takeDigits_append ds [] hds (fun c hc => Option.noConfusion hc)
  rwa [List.append_nil] at h


theorem stripSign_decomp (cs : List Char) :
    ∃ sg, IsSign sg ∧ cs = sg ++ (stripSign cs).2 := by
  cases cs with
  | nil => exact ⟨[], Or.inl rfl, rfl⟩
  | cons c t =>
      by_cases h1 : c = '+'
      · subst h1
        refine ⟨['+'], Or.inr (Or.inl rfl), ?_⟩
        rw [stripSign, if_pos rfl]
        rfl
      · by_cases h2 : c = '-'
        · subst h2
          refine ⟨['-'], Or.inr (Or.inr rfl), ?_⟩
          rw [stripSign, if_neg (by decide), if_pos rfl]
          rfl
        · refine ⟨[], Or.inl rfl, ?_⟩
          rw [stripSign, if_neg h1, if_neg h2]
          rfl


theorem stripSign_of_head_not_sign {cs : List Char}
    (h : ∀ c, cs.head? = some c → c ≠ '+' ∧ c ≠ '-') :
    stripSign cs = (false, cs) := by
  cases cs with
  | nil => rfl
  | cons c t =>
      obtain ⟨h1, h2⟩ := h c rfl
      rw [stripSign, if_neg h1, if_neg h2]


theorem expTail_head_not_digit {ex : List Char} (h : IsExpTail ex) :
    ∀ c, ex.head? = some c → isDigit c = false := by
  intro c hc
  rcases h with rfl | ⟨e, sg, ds, rfl, he, _, _, _⟩
  · cases hc
  · injection hc with hc
    rw [← hc]
    rcases he with rfl | rfl <;> decide


theorem expTail_head_ne_dot {ex : List Char} (h : IsExpTail ex) :
    ex.head? ≠ some '.' := by
  intro hc
  rcases h with rfl | ⟨e, sg, ds, rfl, he, _, _, _⟩
  · cases hc
  · injection hc with hc
    rcases he with rfl | rfl <;> exact absurd hc (by decide)


theorem parseExpTail_isSome_iff (ex : List Char) :
    (parseExpTail ex).isSome = true ↔ IsExpTail ex := by
  constructor
  · intro h
    cases ex with
    | nil => exact Or.inl rfl
    | cons c cs =>
        simp only [parseExpTail] at h
        by_cases hc : c = 'e' ∨ c = 'E'
        · rw [if_pos hc] at h
          by_cases hg : (takeDigits (stripSign cs).2).1 ≠ [] ∧
              (takeDigits (stripSign cs).2).2 = []
          · obtain ⟨sg, hsg, hdec⟩ := stripSign_decomp cs
            refine Or.inr ⟨c, sg, (takeDigits (stripSign cs).2).1, ?_, hc, hsg,
              hg.1, (takeDigits_spec _).2.1⟩
            have h1 := (takeDigits_spec (stripSign cs).2).1
            rw [hg.2, List.append_nil] at h1
            rw [← h1, ← hdec]
          · rw [if_neg hg] at h
            cases h
        · rw [if_neg hc] at h
          cases h
  · rintro (rfl | ⟨e, sg, ds, rfl, he, hsg, hne, hds⟩)
    · rfl
    · have hstrip : (stripSign (sg ++ ds)).2 = ds := by
        rcases hsg with rfl | rfl | rfl
        · rw [List.nil_append]
          rw [stripSign_of_head_not_sign]
          intro c hc
          cases ds with
          | nil => cases hc
          | cons d t =>
              injection hc with hc
              rw [← hc]
              exact digit_not_sign (hds d (List.mem_cons_self _ _))
        · rw [List.cons_append, stripSign, if_pos rfl]
          rfl
        · rw [List.cons_append, stripSign, if_neg (by decide), if_pos rfl]
          rfl
      simp only [parseExpTail, hstrip]
      rw [if_pos he, takeDigits_all hds]
      rw [if_pos ⟨hne, rfl⟩]
      rfl


theorem parseNumTail_isSome_iff (cs : List Char) :
    (parseNumTail cs).isSome = true ↔ IsNumTail cs := by
  constructor
  · intro h
    simp only [parseNumTail] at h
    by_cases hdot : (takeDigits cs).2.head? = some '.'
    · rw [if_pos hdot] at h
      by_cases hg : (takeDigits cs).1 = [] ∧ (takeDigits (takeDigits cs).2.tail).1 = []
      · rw [if_pos hg] at h
        cases h
      · rw [if_neg hg] at h
        cases hpe : parseExpTail (takeDigits (takeDigits cs).2.tail).2 with
        | none =>
            rw [hpe] at h
            cases h
        | some ex0 =>
            right
            refine ⟨(takeDigits cs).1, (takeDigits (takeDigits cs).2.tail).1,
              (takeDigits (takeDigits cs).2.tail).2, ?_, (takeDigits_spec cs).2.1,
              (takeDigits_spec _).2.1, ?_, ?_⟩
            · calc cs = (takeDigits cs).1 ++ (takeDigits cs).2 := (takeDigits_spec cs).1
                _ = (takeDigits cs).1 ++ ('.' :: (takeDigits cs).2.tail) := by
                    rw [← head?_some_decomp hdot]
                _ = (takeDigits cs).1 ++ ('.' :: ((takeDigits (takeDigits cs).2.tail).1 ++
                      (takeDigits (takeDigits cs).2.tail).2)) := by
                    rw [← (takeDigits_spec (takeDigits cs).2.tail).1]
            · by_cases hip : (takeDigits cs).1 = []
              · right
                intro hfp
                exact hg ⟨hip, hfp⟩
              · exact Or.inl hip
            · exact (parseExpTail_isSome_iff _).mp (by rw [hpe]; rfl)
    · rw [if_neg hdot] at h
      by_cases hip : (takeDigits cs).1 = []
      · rw [if_pos hip] at h
        cases h
      · rw [if_neg hip] at h
        cases hpe : parseExpTail (takeDigits cs).2 with
        | none =>
            rw [hpe] at h
            cases h
        | some ex0 =>
            left
            have hexp := (parseExpTail_isSome_iff (takeDigits cs).2).mp (by rw [hpe]; rfl)
            exact ⟨(takeDigits cs).1, (takeDigits cs).2, (takeDigits_spec cs).1, hip,
              (takeDigits_spec cs).2.1, hexp⟩
  · rintro (⟨ds, ex, rfl, hne, hds, hex⟩ | ⟨ip, fp, ex, rfl, hip, hfp, hnz, hex⟩)
    · have htd : takeDigits (ds ++ ex) = (ds, ex) :=
        takeDigits_append hds (expTail_head_not_digit hex)
      simp only [parseNumTail, htd]
      rw [if_neg (expTail_head_ne_dot hex), if_neg hne]
      obtain ⟨v, hv⟩ := Option.isSome_iff_exists.mp ((parseExpTail_isSome_iff ex).mpr hex)
      rw [hv]
      rfl
    · have htd : takeDigits (ip ++ '.' :: (fp ++ ex)) = (ip, '.' :: (fp ++ ex)) := by
        refine takeDigits_append hip ?_
        intro c hc
        injection hc with hc
        rw [← hc]
        decide
      have htd2 : takeDigits (fp ++ ex) = (fp, ex) :=
        takeDigits_append hfp (expTail_head_not_digit hex)
      have hand : ¬(ip = [] ∧ (takeDigits ('.' :: (fp ++ ex)).tail).1 = []) := by
        rw [List.tail_cons, htd2]
        rintro ⟨h1, h2⟩
        rcases hnz with h | h
        · exact h h1
        · exact h h2
      simp only [parseNumTail, htd]
      rw [if_pos (show ('.' :: (fp ++ ex)).head? = some '.' by rw [List.head?_cons]),
        if_neg hand]
      simp only [List.tail_cons, htd2]
      obtain ⟨v, hv⟩ := Option.isSome_iff_exists.mp ((parseExpTail_isSome_iff ex).mpr hex)
      rw [hv]
      rfl


theorem numTail_head_not_sign {rest : List Char} (h : IsNumTail rest) :
    ∀ c, rest.head? = some c → c ≠ '+' ∧ c ≠ '-' := by
  intro c hc
  have hdig : isDigit c = true ∨ c = '.' := by
    rcases h with ⟨ds, ex, rfl, hne, hds, _⟩ | ⟨ip, fp, ex, rfl, hip, _, _, _⟩
    · cases ds with
      | nil => exact absurd rfl hne
      | cons d t =>
          injection hc with hc
          rw [← hc]
          exact Or.inl (hds d (List.mem_cons_self _ _))
    · cases ip with
      | nil =>
          injection hc with hc
          exact Or.inr hc.symm
      | cons i t =>
          injection hc with hc
          rw [← hc]
          exact Or.inl (hip i (List.mem_cons_self _ _))
  constructor <;> rintro rfl <;> rcases hdig with h2 | h2 <;> exact absurd h2 (by decide)


theorem specialTail_head_not_sign {rest : List Char} (h : IsSpecialTail rest) :
    ∀ c, rest.head? = some c → c ≠ '+' ∧ c ≠ '-' := by
  intro c hc
  rcases h with h | h | h <;>
  · rcases rest with _ | ⟨c0, t⟩
    · cases hc
    · injection hc with hc
      rw [List.map_cons] at h
      injection h with h1 _
      rw [← hc]
      constructor <;> rintro rfl <;> exact absurd h1 (by decide)


theorem isNumTail_ne_nil : ¬ IsNumTail [] := by
  rintro (⟨ds, ex, h, hne, _, _⟩ | ⟨ip, fp, ex, h, _, _, _, _⟩)
  · cases ds with
    | nil => exact hne rfl
    | cons d t => exact List.noConfusion h
  · cases ip with
    | nil => exact List.noConfusion h
    | cons i t => exact List.noConfusion h


theorem isSpecialTail_ne_nil : ¬ IsSpecialTail [] := by
  rintro (h | h | h) <;> exact absurd h (by decide)


theorem f64Core_isSome_iff (cs : List Char) (hne : cs ≠ []) :
    (f64Core cs).isSome = true ↔
      ∃ sg rest, cs = sg ++ rest ∧ IsSign sg ∧
        (IsNumTail rest ∨ IsSpecialTail rest) := by
  constructor
  · intro h
    simp only [f64Core] at h
    obtain ⟨sg, hsg, hdec⟩ := stripSign_decomp cs
    cases hpn : parseNumTail (stripSign cs).2 with
    | some q =>
        exact ⟨sg, (stripSign cs).2, hdec, hsg,
          Or.inl ((parseNumTail_isSome_iff _).mp (by rw [hpn]; rfl))⟩
    | none =>
        rw [hpn] at h
        refine ⟨sg, (stripSign cs).2, hdec, hsg, Or.inr ?_⟩
        by_cases h1 : (stripSign cs).2.map Char.toLower = "inf".data ∨
            (stripSign cs).2.map Char.toLower = "infinity".data
        · rcases h1 with h1 | h1
          · exact Or.inl h1
          · exact Or.inr (Or.inl h1)
        · rw [if_neg h1] at h
          by_cases h2 : (stripSign cs).2.map Char.toLower = "nan".data
          · exact Or.inr (Or.inr h2)
          · rw [if_neg h2] at h
            cases h
  · rintro ⟨sg, rest, rfl, hsg, hkind⟩
    have hstrip : (stripSign (sg ++ rest)).2 = rest := by
      rcases hsg with rfl | rfl | rfl
      · rw [List.nil_append, stripSign_of_head_not_sign]
        intro c hc
        rcases hkind with hk | hk
        · exact numTail_head_not_sign hk c hc
        · exact specialTail_head_not_sign hk c hc
      · rw [List.cons_append, stripSign, if_pos rfl]
        rfl
      · rw [List.cons_append, stripSign, if_neg (by decide), if_pos rfl]
        rfl
    simp only [f64Core, hstrip]
    cases hpn : parseNumTail rest with
    | some q => rfl
    | none =>
        rcases hkind with hk | hk
        · have := (parseNumTail_isSome_iff rest).mpr hk
          rw [hpn] at this
          cases this
        · rcases hk with hk | hk | hk
          · rw [if_pos (Or.inl hk)]
            rfl
          · rw [if_pos (Or.inr hk)]
            rfl
          · have hno : ¬(rest.map Char.toLower = "inf".data ∨
                rest.map Char.toLower = "infinity".data) := by
              rw [hk]
              rintro (h | h) <;> exact absurd h (by decide)
            rw [if_neg hno, if_pos hk]
            rfl


theorem f64FromStr_isSome_iff (s : String) :
    (f64FromStr s).isSome = true ↔ F64Lit s := by
  cases hd : s.data with
  | nil =>
      constructor
      · intro h
        rw [f64FromStr, hd] at h
        cases h
      · rintro ⟨sg, rest, hdec, hsg, hkind⟩
        rw [hd] at hdec
        have hsgnil : sg = [] := by
          cases sg with
          | nil => rfl
          | cons a t => exact List.noConfusion hdec
        subst hsgnil
        rw [List.nil_append] at hdec
        rcases hkind with hk | hk
        · rw [← hdec] at hk
          exact absurd hk isNumTail_ne_nil
        · rw [← hdec] at hk
          exact absurd hk isSpecialTail_ne_nil
  | cons c rest0 =>
      have hne : s.data ≠ [] := by
        rw [hd]
        exact fun h => List.noConfusion h
      have hcore : f64FromStr s = f64Core s.data := by
        rw [f64FromStr, hd]
      rw [F64Lit, ← hd] at *
      rw [hcore]
      exact f64Core_isSome_iff s.data hne


/-- C2 amended: Price deserialization from a wire string succeeds exactly
when the string matches Rust's f64 literal grammar — an optional sign
followed by a decimal number, or by one of the case-insensitive non-finite
literals `inf`/`infinity`/`nan` — and stores the parsed value, e.g.
`"15.44"` yields 15.44 and `"abc"` fails with an invalid-price error. -/
theorem c2_price_accepts_f64_grammar :
    (∀ s, eIsOk (priceFromJson (Json.str s)) = true ↔ F64Lit s) ∧
    priceFromJson (Json.str "15.44") =
      .ok ⟨.finite (((1544 : ℕ) : ℚ) / ((100 : ℕ) : ℚ))⟩ ∧
    priceFromJson (Json.str "37.12") =
      .ok ⟨.finite (((3712 : ℕ) : ℚ) / ((100 : ℕ) : ℚ))⟩ ∧
    priceFromJson (Json.str "abc") = .error (.invalidPrice "abc") := by
  refine ⟨?_, rfl, rfl, rfl⟩
  intro s
  rw [← f64FromStr_isSome_iff]
  cases h : f64FromStr s with
  | none => simp [priceFromJson, h, eIsOk]
  | some v => simp [priceFromJson, h, eIsOk]


/-- C2 counterexample: the claim requires every string that does not denote a
finite number to fail, but the code accepts `"inf"` and `"nan"`, storing
non-finite values. -/
theorem c2_counterexample :
    priceFromJson (Json.str "inf") = .ok ⟨FVal.inf false⟩ ∧
    (FVal.inf false).isFinite = false ∧
    priceFromJson (Json.str "NaN") = .ok ⟨FVal.nan⟩ ∧
    FVal.nan.isFinite = false :=
  ⟨rfl, rfl, rfl, rfl⟩


theorem uriChar_ne_hash {c : Char} (h : isUriChar c = true) : c ≠ '#' := by
  rintro rfl
  exact absurd h (by decide)


theorem authChar_not_stop {c : Char} (h : isAuthChar c = true) :
    ¬(c = '/' ∨ c = '?' ∨ c = '#') := by
  rintro (rfl | rfl | rfl) <;> exact absurd h (by decide)


theorem takeUntilHash_decomp (cs : List Char) :
    ∃ rest, cs = takeUntilHash cs ++ rest ∧ (rest = [] ∨ rest.head? = some '#') ∧
      '#' ∉ takeUntilHash cs := by
  induction cs with
  | nil => exact ⟨[], rfl, Or.inl rfl, fun h => absurd h (List.not_mem_nil _)⟩
  | cons c t ih =>
      by_cases hc : c = '#'
      · subst hc
        refine ⟨'#' :: t, ?_, Or.inr rfl, ?_⟩
        · rw [takeUntilHash, if_pos rfl]
          rfl
        · rw [takeUntilHash, if_pos rfl]
          exact fun h => absurd h (List.not_mem_nil _)
      · obtain ⟨rest, hdec, hrest, hmem⟩ := ih
        refine ⟨rest, ?_, hrest, ?_⟩
        · rw [takeUntilHash, if_neg hc, List.cons_append, ← hdec]
        · rw [takeUntilHash, if_neg hc]
          intro hm
          rcases List.mem_cons.mp hm with rfl | hm
          · exact hc rfl
          · exact hmem hm


theorem takeUntilHash_append {kept rest : List Char} (h1 : '#' ∉ kept)
    (h2 : rest = [] ∨ rest.head? = some '#') :
    takeUntilHash (kept ++ rest) = kept := by
  induction kept with
  | nil =>
      rcases h2 with rfl | h2
      · rfl
      · rw [List.nil_append]
        cases rest with
        | nil => rfl
        | cons c t =>
            injection h2 with h2
            rw [takeUntilHash, if_pos h2]
  | cons c t ih =>
      have hc : c ≠ '#' := fun h => h1 (h ▸ List.mem_cons_self _ _)
      have h1t : '#' ∉ t := fun h => h1 (List.mem_cons_of_mem _ h)
      rw [List.cons_append, takeUntilHash, if_neg hc, ih h1t]


theorem takeUntilHash_head {cs : List Char} {c : Char} (hc : cs.head? = some c)
    (hne : c ≠ '#') : (takeUntilHash cs).head? = some c := by
  cases cs with
  | nil => cases hc
  | cons c0 t =>
      injection hc with hc
      subst hc
      rw [takeUntilHash, if_neg hne]
      rfl


theorem pathAndQueryOf_ok {cs kept : List Char}
    (h : pathAndQueryOf cs = some kept) :
    kept = takeUntilHash cs ∧ kept.all isUriChar = true := by
  rw [pathAndQueryOf] at h
  by_cases hall : (takeUntilHash cs).all isUriChar
  · rw [if_pos hall] at h
    injection h with h
    exact ⟨h.symm, h ▸ hall⟩
  · rw [if_neg hall] at h
    exact Option.noConfusion h


theorem pathAndQueryOf_of_all {cs : List Char}
    (h2 : (takeUntilHash cs).all isUriChar = true) :
    pathAndQueryOf cs = some (takeUntilHash cs) := by
  rw [pathAndQueryOf, if_pos h2]


theorem splitAuth_spec (cs : List Char) :
    cs = (splitAuth cs).1 ++ (splitAuth cs).2 ∧
    (∀ c ∈ (splitAuth cs).1, ¬(c = '/' ∨ c = '?' ∨ c = '#')) ∧
    (∀ c, (splitAuth cs).2.head? = some c → (c = '/' ∨ c = '?' ∨ c = '#')) := by
  induction cs with
  | nil =>
      exact ⟨rfl, fun c hc => absurd hc (List.not_mem_nil _),
        fun c hc => Option.noConfusion hc⟩
  | cons c t ih =>
      by_cases hc : c = '/' ∨ c = '?' ∨ c = '#'
      · rw [splitAuth, if_pos hc]
        refine ⟨rfl, fun d hd => absurd hd (List.not_mem_nil _), ?_⟩
        intro d hd
        injection hd with hd
        rw [← hd]
        exact hc
      · simp only [splitAuth, if_neg hc]
        refine ⟨?_, ?_, ih.2.2⟩
        · calc c :: t = c :: ((splitAuth t).1 ++ (splitAuth t).2) := by rw [← ih.1]
            _ = (c :: (splitAuth t).1) ++ (splitAuth t).2 := rfl
        · intro d hd
          rcases List.mem_cons.mp hd with rfl | hd
          · exact hc
          · exact ih.2.1 d hd


theorem splitAuth_append {auth rest : List Char}
    (h1 : ∀ c ∈ auth, ¬(c = '/' ∨ c = '?' ∨ c = '#'))
    (h2 : ∀ c, rest.head? = some c → (c = '/' ∨ c = '?' ∨ c = '#')) :
    splitAuth (auth ++ rest) = (auth, rest) := by
  induction auth with
  | nil =>
      cases rest with
      | nil => rfl
      | cons c t =>
          rw [List.nil_append, splitAuth, if_pos (h2 c rfl)]
  | cons c t ih =>
      have hc := h1 c (List.mem_cons_self _ _)
      have h1t : ∀ d ∈ t, ¬(d = '/' ∨ d = '?' ∨ d = '#') :=
        fun d hd => h1 d (List.mem_cons_of_mem _ hd)
      simp only [List.cons_append, splitAuth, if_neg hc, List.append_eq, ih h1t]


theorem schemeScan_none_of_auth : ∀ (cs acc : List Char),
    cs.all isAuthChar = true → schemeScan acc cs = none := by
  intro cs
  induction cs with
  | nil => intro acc h; rfl
  | cons c t ih =>
      intro acc h
      rw [List.all_cons, Bool.and_eq_true] at h
      by_cases hs : isSchemeChar c
      · rw [schemeScan, if_pos hs]
        exact ih _ h.2
      · rw [schemeScan, if_neg hs]
        by_cases hcol : c = ':'
        · rw [if_pos hcol]
          have hsl : ¬(t.head? = some '/' ∧ t.tail.head? = some '/') := by
            rintro ⟨hh, _⟩
            cases t with
            | nil => exact Option.noConfusion hh
            | cons d u =>
                injection hh with hh
                subst hh
                rw [List.all_cons, Bool.and_eq_true] at h
                exact absurd h.2.1 (by decide)
          rw [if_neg hsl]
        · rw [if_neg hcol]


theorem schemeScan_complete : ∀ (t acc rest : List Char),
    t.all isSchemeChar = true →
    schemeScan acc (t ++ ':' :: '/' :: '/' :: rest) =
      (if acc ++ t = [] then none else some (acc ++ t, rest)) := by
  intro t
  induction t with
  | nil =>
      intro acc rest h
      rw [List.nil_append, schemeScan, if_neg (by decide), if_pos rfl,
        if_pos ⟨rfl, rfl⟩]
      simp
  | cons x t ih =>
      intro acc rest h
      rw [List.all_cons, Bool.and_eq_true] at h
      rw [List.cons_append, schemeScan, if_pos h.1, ih (acc ++ [x]) rest h.2]
      have hne1 : acc ++ [x] ++ t ≠ [] := by simp
      have hne2 : acc ++ x :: t ≠ [] := by simp
      rw [if_neg hne1, if_neg hne2, List.append_assoc]
      rfl


theorem schemeScan_sound : ∀ (cs acc sch rest : List Char),
    schemeScan acc cs = some (sch, rest) →
    ∃ mid, sch = acc ++ mid ∧ cs = mid ++ ':' :: '/' :: '/' :: rest ∧
      mid.all isSchemeChar = true ∧ sch ≠ [] := by
  intro cs
  induction cs with
  | nil => intro acc sch rest h; exact Option.noConfusion h
  | cons c t ih =>
      intro acc sch rest h
      by_cases hs : isSchemeChar c
      · rw [schemeScan, if_pos hs] at h
        obtain ⟨mid, hsch, hdec, hall, hne⟩ := ih (acc ++ [c]) sch rest h
        refine ⟨c :: mid, ?_, ?_, ?_, hne⟩
        · rw [hsch, List.append_assoc]
          rfl
        · rw [List.cons_append, ← hdec]
        · rw [List.all_cons, Bool.and_eq_true]
          exact ⟨hs, hall⟩
      · rw [schemeScan, if_neg hs] at h
        by_cases hcol : c = ':'
        · rw [if_pos hcol] at h
          by_cases hsl : t.head? = some '/' ∧ t.tail.head? = some '/'
          · rw [if_pos hsl] at h
            by_cases hacc : acc = []
            · rw [if_pos hacc] at h
              exact Option.noConfusion h
            · rw [if_neg hacc] at h
              injection h with h
              injection h with h1 h2
              subst hcol
              refine ⟨[], ?_, ?_, rfl, ?_⟩
              · rw [List.append_nil]
                exact h1.symm
              · rw [List.nil_append]
                obtain ⟨hh1, hh2⟩ := hsl
                have ht : t = '/' :: t.tail := head?_some_decomp hh1
                have ht2 : t.tail = '/' :: t.tail.tail := head?_some_decomp hh2
                rw [ht, ht2, h2]
              · rw [← h1]
                exact hacc
          · rw [if_neg hsl] at h
            exact Option.noConfusion h
        · rw [if_neg hcol] at h
          exact Option.noConfusion h


theorem str_data_append (a b : String) : (a ++ b).data = a.data ++ b.data := by
  cases a
  cases b
  rfl


theorem exists_cons_of_ne_nil {l : List Char} (h : l ≠ []) : ∃ d u, l = d :: u := by
  cases l with
  | nil => exact absurd rfl h
  | cons d u => exact ⟨d, u, rfl⟩


theorem parseFull_none {cs : List Char} (h : schemeScan [] cs = none) :
    parseFull cs = if cs.all isAuthChar then some ⟨none, ⟨cs⟩, ""⟩ else none := by
  rw [parseFull, h]


theorem parseFull_some {cs sch rest : List Char}
    (h : schemeScan [] cs = some (sch, rest)) :
    parseFull cs =
      (if (splitAuth rest).1 = [] then none
       else if (splitAuth rest).1.all isAuthChar then
         match pathAndQueryOf (splitAuth rest).2 with
         | some kept => some ⟨some ⟨sch⟩, ⟨(splitAuth rest).1⟩, ⟨kept⟩⟩
         | none => none
       else none) := by
  rw [parseFull, h]


theorem uriCore_sound : ∀ {cs : List Char} {u : HttpUri},
    uriCore cs = some u → IsRequestTarget cs ∧ ValidUri u := by
  intro cs u h
  match cs with
  | [] => exact Option.noConfusion h
  | [c] =>
      rw [uriCore] at h
      by_cases h1 : c = '/'
      · subst h1
        rw [if_pos rfl] at h
        injection h with h
        subst h
        constructor
        · right; left
          exact ⟨['/'], [], rfl, rfl, by decide, Or.inl rfl⟩
        · right; left
          exact ⟨rfl, rfl, rfl, by decide⟩
      · rw [if_neg h1] at h
        by_cases h2 : c = '*'
        · subst h2
          rw [if_pos rfl] at h
          injection h with h
          subst h
          exact ⟨Or.inl rfl, Or.inl rfl⟩
        · rw [if_neg h2] at h
          by_cases h3 : isAuthChar c
          · rw [if_pos h3] at h
            injection h with h
            subst h
            have hall : ([c]).all isAuthChar = true := by simp [h3]
            constructor
            · right; right; left
              exact ⟨fun hh => List.noConfusion hh, hall⟩
            · right; right; left
              refine ⟨rfl, rfl, fun hh => List.noConfusion hh, ?_, hall⟩
              intro hh
              injection hh with hh _
              exact h2 hh
          · rw [if_neg h3] at h
            exact Option.noConfusion h
  | c :: c2 :: t =>
      rw [uriCore] at h
      by_cases h1 : c = '/'
      · subst h1
        rw [if_pos rfl] at h
        cases hpq : pathAndQueryOf ('/' :: c2 :: t) with
        | none =>
            rw [hpq] at h
            exact Option.noConfusion h
        | some kept =>
            rw [hpq] at h
            injection h with h
            subst h
            obtain ⟨hkept, hall⟩ := pathAndQueryOf_ok hpq
            obtain ⟨rest, hdec, hrest, hmem⟩ := takeUntilHash_decomp ('/' :: c2 :: t)
            rw [← hkept] at hdec
            have hhead : kept.head? = some '/' := by
              rw [hkept]
              exact takeUntilHash_head rfl (by decide)
            constructor
            · right; left
              exact ⟨kept, rest, hdec, hhead, hall, hrest⟩
            · right; left
              exact ⟨rfl, rfl, hhead, hall⟩
      · rw [if_neg h1] at h
        cases hsc : schemeScan [] (c :: c2 :: t) with
        | none =>
            rw [parseFull_none hsc] at h
            by_cases hall : (c :: c2 :: t).all isAuthChar
            · rw [if_pos hall] at h
              injection h with h
              subst h
              constructor
              · right; right; left
                exact ⟨fun hh => List.noConfusion hh, hall⟩
              · right; right; left
                refine ⟨rfl, rfl, fun hh => List.noConfusion hh, ?_, hall⟩
                intro hh
                injection hh with _ hh
                exact List.noConfusion hh
            · rw [if_neg hall] at h
              exact Option.noConfusion h
        | some pr =>
            obtain ⟨sch, rest0⟩ := pr
            rw [parseFull_some hsc] at h
            obtain ⟨mid, hmid, hdec0, hmall, hmne⟩ :=
              schemeScan_sound _ [] sch rest0 hsc
            rw [List.nil_append] at hmid
            subst hmid
            by_cases hA : (splitAuth rest0).1 = []
            · rw [if_pos hA] at h
              exact Option.noConfusion h
            · rw [if_neg hA] at h
              by_cases hB : (splitAuth rest0).1.all isAuthChar
              · rw [if_pos hB] at h
                cases hpq : pathAndQueryOf (splitAuth rest0).2 with
                | none =>
                    rw [hpq] at h
                    exact Option.noConfusion h
                | some kept =>
                    rw [hpq] at h
                    injection h with h
                    subst h
                    obtain ⟨hkept, hkall⟩ := pathAndQueryOf_ok hpq
                    obtain ⟨rest2, hd2, hr2, hm2⟩ :=
                      takeUntilHash_decomp (splitAuth rest0).2
                    rw [← hkept] at hd2
                    have hsplit := splitAuth_spec rest0
                    have hkhead : kept = [] ∨ kept.head? = some '/' ∨
                        kept.head? = some '?' := by
                      cases hk2 : (splitAuth rest0).2 with
                      | nil =>
                          left
                          rw [hkept, hk2]
                          rfl
                      | cons d u =>
                          have hd := hsplit.2.2 d (by rw [hk2]; rfl)
                          rcases hd with rfl | rfl | rfl
                          · right; left
                            rw [hkept, hk2]
                            exact takeUntilHash_head rfl (by decide)
                          · right; right
                            rw [hkept, hk2]
                            exact takeUntilHash_head rfl (by decide)
                          · left
                            rw [hkept, hk2, takeUntilHash, if_pos rfl]
                    have hdecomp : c :: c2 :: t =
                        sch ++ ':' :: '/' :: '/' ::
                          ((splitAuth rest0).1 ++ (kept ++ rest2)) := by
                      rw [hdec0]
                      have : rest0 = (splitAuth rest0).1 ++ (kept ++ rest2) := by
                        calc rest0 = (splitAuth rest0).1 ++ (splitAuth rest0).2 :=
                              hsplit.1
                          _ = (splitAuth rest0).1 ++ (kept ++ rest2) := by rw [← hd2]
                      rw [← this]
                    constructor
                    · right; right; right
                      exact ⟨sch, (splitAuth rest0).1, kept, rest2, hdecomp,
                        hmne, hmall, hA, hB, hkall, hkhead, hr2⟩
                    · right; right; right
                      exact ⟨⟨sch⟩, rfl, hmne, hmall, hA, hB, hkall, hkhead⟩
              · rw [if_neg hB] at h
                exact Option.noConfusion h


theorem uriCore_origin {kept rest : List Char} (hhead : kept.head? = some '/')
    (hall : kept.all isUriChar = true) (hrest : rest = [] ∨ rest.head? = some '#') :
    uriCore (kept ++ rest) = some ⟨none, "", ⟨kept⟩⟩ := by
  have hnh : '#' ∉ kept := fun hm => uriChar_ne_hash (List.all_eq_true.mp hall _ hm) rfl
  have htuh : takeUntilHash (kept ++ rest) = kept := takeUntilHash_append hnh hrest
  have hpqall : pathAndQueryOf (kept ++ rest) = some kept := by
    rw [pathAndQueryOf, htuh, if_pos hall]
  have hk := head?_some_decomp hhead
  cases hkr : kept.tail ++ rest with
  | nil =>
      obtain ⟨h1, h2⟩ := List.append_eq_nil.mp hkr
      rw [hk, h1, h2, List.append_nil]
      rfl
  | cons d u =>
      have hsh : kept ++ rest = '/' :: d :: u := by
        rw [hk, List.cons_append, hkr]
      rw [hsh, uriCore, if_pos (show ('/' : Char) = '/' from rfl), ← hsh, hpqall]


theorem uriCore_authority {cs : List Char} (hne : cs ≠ []) (hstar : cs ≠ ['*'])
    (hall : cs.all isAuthChar = true) : uriCore cs = some ⟨none, ⟨cs⟩, ""⟩ := by
  cases cs with
  | nil => exact absurd rfl hne
  | cons c t =>
      have hc : isAuthChar c = true := by
        rw [List.all_cons, Bool.and_eq_true] at hall
        exact hall.1
      have h1 : c ≠ '/' := by
        rintro rfl
        exact absurd hc (by decide)
      cases t with
      | nil =>
          have h2 : c ≠ '*' := by
            rintro rfl
            exact hstar rfl
          rw [uriCore, if_neg h1, if_neg h2, if_pos hc]
      | cons c2 t =>
          rw [uriCore, if_neg h1, parseFull_none (schemeScan_none_of_auth _ [] hall),
            if_pos hall]


theorem parseFull_absolute {sch auth kept rest : List Char}
    (hsne : sch ≠ []) (hsall : sch.all isSchemeChar = true)
    (hane : auth ≠ []) (haall : auth.all isAuthChar = true)
    (hkall : kept.all isUriChar = true)
    (hkhead : kept = [] ∨ kept.head? = some '/' ∨ kept.head? = some '?')
    (hrest : rest = [] ∨ rest.head? = some '#') :
    parseFull (sch ++ ':' :: '/' :: '/' :: (auth ++ (kept ++ rest))) =
      some ⟨some ⟨sch⟩, ⟨auth⟩, ⟨kept⟩⟩ := by
  have hsc : schemeScan [] (sch ++ ':' :: '/' :: '/' :: (auth ++ (kept ++ rest))) =
      some (sch, auth ++ (kept ++ rest)) := by
    rw [schemeScan_complete sch [] _ hsall, List.nil_append, if_neg hsne]
  have h2 : ∀ c, (kept ++ rest).head? = some c → (c = '/' ∨ c = '?' ∨ c = '#') := by
    intro c hc
    rcases hkhead with rfl | hk | hk
    · rw [List.nil_append] at hc
      rcases hrest with rfl | hr
      · exact Option.noConfusion hc
      · right; right
        have := hr.symm.trans hc
        injection this with hh
        exact hh.symm
    · left
      have hd := head?_some_decomp hk
      rw [hd, List.cons_append] at hc
      injection hc with hc
      exact hc.symm
    · right; left
      have hd := head?_some_decomp hk
      rw [hd, List.cons_append] at hc
      injection hc with hc
      exact hc.symm
  have hsa : splitAuth (auth ++ (kept ++ rest)) = (auth, kept ++ rest) :=
    splitAuth_append
      (fun c hc => authChar_not_stop (List.all_eq_true.mp haall c hc)) h2
  have hnh : '#' ∉ kept := fun hm => uriChar_ne_hash (List.all_eq_true.mp hkall _ hm) rfl
  have hpq : pathAndQueryOf (kept ++ rest) = some kept := by
    rw [pathAndQueryOf, takeUntilHash_append hnh hrest, if_pos hkall]
  rw [parseFull_some hsc, hsa]
  rw [if_neg (show ¬((auth, kept ++ rest).1 = []) from hane)]
  rw [if_pos (show ((auth, kept ++ rest).1.all isAuthChar = true) from haall)]
  rw [show pathAndQueryOf (auth, kept ++ rest).2 = some kept from hpq]


theorem uriCore_absolute {sch auth kept rest : List Char}
    (hsne : sch ≠ []) (hsall : sch.all isSchemeChar = true)
    (hane : auth ≠ []) (haall : auth.all isAuthChar = true)
    (hkall : kept.all isUriChar = true)
    (hkhead : kept = [] ∨ kept.head? = some '/' ∨ kept.head? = some '?')
    (hrest : rest = [] ∨ rest.head? = some '#') :
    uriCore (sch ++ ':' :: '/' :: '/' :: (auth ++ (kept ++ rest))) =
      some ⟨some ⟨sch⟩, ⟨auth⟩, ⟨kept⟩⟩ := by
  obtain ⟨s0, st, rfl⟩ := exists_cons_of_ne_nil hsne
  obtain ⟨d, u, hdu⟩ := exists_cons_of_ne_nil
    (show st ++ ':' :: '/' :: '/' :: (auth ++ (kept ++ rest)) ≠ [] by simp)
  have hs0 : s0 ≠ '/' := by
    have hh := List.all_eq_true.mp hsall s0 (List.mem_cons_self _ _)
    rintro rfl
    exact absurd hh (by decide)
  rw [List.cons_append, hdu, uriCore, if_neg hs0, ← hdu, ← List.cons_append]
  exact parseFull_absolute hsne hsall hane haall hkall hkhead hrest


theorem valid_roundtrip {u : HttpUri} (h : ValidUri u) :
    uriCore u.render.data = some u := by
  obtain ⟨sc, au, pq⟩ := u
  rcases h with h | ⟨h1, h2, h3, h4⟩ | ⟨h1, h2, h3, h3b, h4⟩ |
    ⟨sch, h1, h2, h3, h4, h5, h6, h7⟩
  · rw [h]
    decide
  · simp only at h1 h2 h3 h4
    subst h1
    subst h2
    have h5 := uriCore_origin h3 h4 (Or.inl rfl)
    rw [List.append_nil] at h5
    exact h5
  · simp only at h1 h2 h3 h3b h4
    subst h1
    subst h2
    have hd : (HttpUri.render ⟨none, au, ""⟩).data = au.data := by
      show (("" ++ au ++ "")).data = au.data
      rw [str_data_append, str_data_append]
      simp
    rw [hd]
    exact uriCore_authority h3 h3b h4
  · simp only at h1 h2 h3 h4 h5 h6 h7
    subst h1
    have hd : (HttpUri.render ⟨some sch, au, pq⟩).data =
        sch.data ++ ':' :: '/' :: '/' :: (au.data ++ (pq.data ++ [])) := by
      show ((sch ++ "://" ++ au ++ pq)).data = _
      rw [str_data_append, str_data_append, str_data_append]
      simp [List.append_assoc]
    rw [hd]
    exact uriCore_absolute h2 h3 h4 h5 h6 h7 (Or.inl rfl)


theorem uriCore_isSome_iff (cs : List Char) :
    (uriCore cs).isSome = true ↔ IsRequestTarget cs := by
  constructor
  · intro h
    obtain ⟨u, hu⟩ := Option.isSome_iff_exists.mp h
    exact (uriCore_sound hu).1
  · intro h
    rcases h with rfl | horig | hauth | habs
    · decide
    · obtain ⟨kept, rest, rfl, hh, ha, hr⟩ := horig
      rw [uriCore_origin hh ha hr]
      rfl
    · by_cases hstar : cs = ['*']
      · subst hstar
        decide
      · rw [uriCore_authority hauth.1 hstar hauth.2]
        rfl
    · obtain ⟨sch, auth, kept, rest, rfl, h2, h3, h4, h5, h6, h7, h8⟩ := habs
      rw [uriCore_absolute h2 h3 h4 h5 h6 h7 h8]
      rfl


/-- C3 amended: Uri deserialization accepts exactly the HTTP request-target
grammar, not only absolute URIs: absolute-form `scheme://authority[path]`,
but also the scheme-less origin-form (a `/`-led path), authority-form, and
`*`; the empty string and strings with characters outside the URI character
set fail; text from `#` on is dropped; and a successful parse re-serializes
to a string that parses back to the same components. -/
theorem c3_uri_accepts_request_targets :
    (∀ s, eIsOk (uriFromJson (Json.str s)) = true ↔ IsRequestTarget s.data) ∧
    (∀ s u, httpUriFromStr s = some u → httpUriFromStr u.render = some u) := by
  constructor
  · intro s
    rw [← uriCore_isSome_iff]
    cases h : uriCore s.data with
    | none => simp [uriFromJson, httpUriFromStr, h, eIsOk]
    | some v => simp [uriFromJson, httpUriFromStr, h, eIsOk]
  · intro s u h
    exact valid_roundtrip (uriCore_sound h).2


/-- C3 counterexample: the scheme-less origin-form string `"/abc"` parses
successfully (with no scheme in the result), so "for every string missing a
scheme ... it fails" is false on the code. -/
theorem c3_counterexample :
    uriFromJson (Json.str "/abc") = .ok ⟨⟨none, "", "/abc"⟩⟩ ∧
    (⟨none, "", "/abc"⟩ : HttpUri).scheme = none ∧
    uriFromJson (Json.str "testuri.com") = .ok ⟨⟨none, "testuri.com", ""⟩⟩ :=
  ⟨rfl, rfl, rfl⟩


/-- C3 witness: the round-trip fact applied to the parse of `"/abc"`. -/
theorem c3_uri_accepts_request_targets_witness :
    httpUriFromStr (HttpUri.render ⟨none, "", "/abc"⟩) = some ⟨none, "", "/abc"⟩ :=
  c3_uri_accepts_request_targets.2 "/abc" ⟨none, "", "/abc"⟩ rfl


theorem card_ok_required_present :
    ∀ name ∈ cardRequiredFields, ∀ (l : List (String × Json)) (c : Card),
      cardFromJson (Json.obj l) = .ok c →
      ∃ v, getField l name = .ok (some v) := by
  intro name hmem l c h
  rw [cardFromJson] at h
  rw [ebind_ok] at h
  obtain ⟨a1, hb1, h⟩ := h
  rw [ebind_ok] at h
  obtain ⟨a2, hb2, h⟩ := h
  rw [ebind_ok] at h
  obtain ⟨a3, hb3, h⟩ := h
  rw [ebind_ok] at h
  obtain ⟨a4, hb4, h⟩ := h
  rw [ebind_ok] at h
  obtain ⟨a5, hb5, h⟩ := h
  rw [ebind_ok] at h
  obtain ⟨a6, hb6, h⟩ := h
  rw [ebind_ok] at h
  obtain ⟨a7, hb7, h⟩ := h
  rw [ebind_ok] at h
  obtain ⟨a8, hb8, h⟩ := h
  rw [ebind_ok] at h
  obtain ⟨a9, hb9, h⟩ := h
  rw [ebind_ok] at h
  obtain ⟨a10, hb10, h⟩ := h
  rw [ebind_ok] at h
  obtain ⟨a11, hb11, h⟩ := h
  rw [ebind_ok] at h
  obtain ⟨a12, hb12, h⟩ := h
  rw [ebind_ok] at h
  obtain ⟨a13, hb13, h⟩ := h
  rw [ebind_ok] at h
  obtain ⟨a14, hb14, h⟩ := h
  rw [ebind_ok] at h
  obtain ⟨a15, hb15, h⟩ := h
  rw [ebind_ok] at h
  obtain ⟨a16, hb16, h⟩ := h
  rw [ebind_ok] at h
  obtain ⟨a17, hb17, h⟩ := h
  rw [ebind_ok] at h
  obtain ⟨a18, hb18, h⟩ := h
  rw [ebind_ok] at h
  obtain ⟨a19, hb19, h⟩ := h
  rw [ebind_ok] at h
  obtain ⟨a20, hb20, h⟩ := h
  rw [ebind_ok] at h
  obtain ⟨a21, hb21, h⟩ := h
  rw [ebind_ok] at h
  obtain ⟨a22, hb22, h⟩ := h
  rw [ebind_ok] at h
  obtain ⟨a23, hb23, h⟩ := h
  rw [ebind_ok] at h
  obtain ⟨a24, hb24, h⟩ := h
  rw [ebind_ok] at h
  obtain ⟨a25, hb25, h⟩ := h
  rw [ebind_ok] at h
  obtain ⟨a26, hb26, h⟩ := h
  rw [ebind_ok] at h
  obtain ⟨a27, hb27, h⟩ := h
  rw [ebind_ok] at h
  obtain ⟨a28, hb28, h⟩ := h
  rw [ebind_ok] at h
  obtain ⟨a29, hb29, h⟩ := h
  rw [ebind_ok] at h
  obtain ⟨a30, hb30, h⟩ := h
  rw [ebind_ok] at h
  obtain ⟨a31, hb31, h⟩ := h
  rw [ebind_ok] at h
  obtain ⟨a32, hb32, h⟩ := h
  rw [ebind_ok] at h
  obtain ⟨a33, hb33, h⟩ := h
  rw [ebind_ok] at h
  obtain ⟨a34, hb34, h⟩ := h
  rw [ebind_ok] at h
  obtain ⟨a35, hb35, h⟩ := h
  rw [ebind_ok] at h
  obtain ⟨a36, hb36, h⟩ := h
  rw [ebind_ok] at h
  obtain ⟨a37, hb37, h⟩ := h
  rw [ebind_ok] at h
  obtain ⟨a38, hb38, h⟩ := h
  rw [ebind_ok] at h
  obtain ⟨a39, hb39, h⟩ := h
  rw [ebind_ok] at h
  obtain ⟨a40, hb40, h⟩ := h
  rw [ebind_ok] at h
  obtain ⟨a41, hb41, h⟩ := h
  rw [ebind_ok] at h
  obtain ⟨a42, hb42, h⟩ := h
  rw [ebind_ok] at h
  obtain ⟨a43, hb43, h⟩ := h
  rw [ebind_ok] at h
  obtain ⟨a44, hb44, h⟩ := h
  rw [ebind_ok] at h
  obtain ⟨a45, hb45, h⟩ := h
  rw [ebind_ok] at h
  obtain ⟨a46, hb46, h⟩ := h
  rw [ebind_ok] at h
  obtain ⟨a47, hb47, h⟩ := h
  rw [ebind_ok] at h
  obtain ⟨a48, hb48, h⟩ := h
  rw [ebind_ok] at h
  obtain ⟨a49, hb49, h⟩ := h
  rw [ebind_ok] at h
  obtain ⟨a50, hb50, h⟩ := h
  rw [ebind_ok] at h
  obtain ⟨a51, hb51, h⟩ := h
  rw [ebind_ok] at h
  obtain ⟨a52, hb52, h⟩ := h
  rw [ebind_ok] at h
  obtain ⟨a53, hb53, h⟩ := h
  rw [ebind_ok] at h
  obtain ⟨a54, hb54, h⟩ := h
  rw [ebind_ok] at h
  obtain ⟨a55, hb55, h⟩ := h
  rw [ebind_ok] at h
  obtain ⟨a56, hb56, h⟩ := h
  rw [ebind_ok] at h
  obtain ⟨a57, hb57, h⟩ := h
  rw [ebind_ok] at h
  obtain ⟨a58, hb58, h⟩ := h
  rw [ebind_ok] at h
  obtain ⟨a59, hb59, h⟩ := h
  rw [ebind_ok] at h
  obtain ⟨a60, hb60, h⟩ := h
  rw [ebind_ok] at h
  obtain ⟨a61, hb61, h⟩ := h
  rw [ebind_ok] at h
  obtain ⟨a62, hb62, h⟩ := h
  rw [ebind_ok] at h
  obtain ⟨a63, hb63, h⟩ := h
  rw [ebind_ok] at h
  obtain ⟨a64, hb64, h⟩ := h
  rw [ebind_ok] at h
  obtain ⟨a65, hb65, h⟩ := h
  rw [ebind_ok] at h
  obtain ⟨a66, hb66, h⟩ := h
  rw [ebind_ok] at h
  obtain ⟨a67, hb67, h⟩ := h
  rw [ebind_ok] at h
  obtain ⟨a68, hb68, h⟩ := h
  simp only [cardRequiredFields, List.mem_cons, List.not_mem_nil, or_false] at hmem
  rcases hmem with rfl | rfl | rfl | rfl | rfl | rfl | rfl | rfl | rfl | rfl | rfl | rfl | rfl | rfl | rfl | rfl | rfl | rfl | rfl | rfl | rfl | rfl | rfl | rfl | rfl | rfl | rfl | rfl | rfl | rfl | rfl | rfl | rfl | rfl | rfl | rfl | rfl | rfl | rfl | rfl | rfl | rfl | rfl
  · obtain ⟨j, hj, h2⟩ := reqField_ok hb2
    exact ⟨j, hj⟩
  · obtain ⟨j, hj, h2⟩ := reqField_ok hb3
    exact ⟨j, hj⟩
  · obtain ⟨j, hj, h2⟩ := reqField_ok hb8
    exact ⟨j, hj⟩
  · obtain ⟨j, hj, h2⟩ := reqField_ok hb9
    exact ⟨j, hj⟩
  · obtain ⟨j, hj, h2⟩ := reqField_ok hb10
    exact ⟨j, hj⟩
  · obtain ⟨j, hj, h2⟩ := reqField_ok hb11
    exact ⟨j, hj⟩
  · obtain ⟨j, hj, h2⟩ := reqField_ok hb12
    exact ⟨j, hj⟩
  · obtain ⟨j, hj, h2⟩ := reqField_ok hb15
    exact ⟨j, hj⟩
  · obtain ⟨j, hj, h2⟩ := reqField_ok hb17
    exact ⟨j, hj⟩
  · obtain ⟨j, hj, h2⟩ := reqField_ok hb20
    exact ⟨j, hj⟩
  · obtain ⟨j, hj, h2⟩ := reqField_ok hb21
    exact ⟨j, hj⟩
  · obtain ⟨j, hj, h2⟩ := reqField_ok hb22
    exact ⟨j, hj⟩
  · obtain ⟨j, hj, h2⟩ := reqField_ok hb25
    exact ⟨j, hj⟩
  · obtain ⟨j, hj, h2⟩ := reqField_ok hb26
    exact ⟨j, hj⟩
  · obtain ⟨j, hj, h2⟩ := reqField_ok hb28
    exact ⟨j, hj⟩
  · obtain ⟨j, hj, h2⟩ := reqField_ok hb30
    exact ⟨j, hj⟩
  · obtain ⟨j, hj, h2⟩ := reqField_ok hb32
    exact ⟨j, hj⟩
  · obtain ⟨j, hj, h2⟩ := reqField_ok hb34
    exact ⟨j, hj⟩
  · obtain ⟨j, hj, h2⟩ := reqField_ok hb35
    exact ⟨j, hj⟩
  · obtain ⟨j, hj, h2⟩ := reqField_ok hb36
    exact ⟨j, hj⟩
  · obtain ⟨j, hj, h2⟩ := reqField_ok hb37
    exact ⟨j, hj⟩
  · obtain ⟨j, hj, h2⟩ := reqField_ok hb38
    exact ⟨j, hj⟩
  · obtain ⟨j, hj, h2⟩ := reqField_ok hb41
    exact ⟨j, hj⟩
  · obtain ⟨j, hj, h2⟩ := reqField_ok hb42
    exact ⟨j, hj⟩
  · obtain ⟨j, hj, h2⟩ := reqField_ok hb43
    exact ⟨j, hj⟩
  · obtain ⟨j, hj, h2⟩ := reqField_ok hb44
    exact ⟨j, hj⟩
  · obtain ⟨j, hj, h2⟩ := reqField_ok hb47
    exact ⟨j, hj⟩
  · obtain ⟨j, hj, h2⟩ := reqField_ok hb51
    exact ⟨j, hj⟩
  · obtain ⟨j, hj, h2⟩ := reqField_ok hb52
    exact ⟨j, hj⟩
  · obtain ⟨j, hj, h2⟩ := reqField_ok hb53
    exact ⟨j, hj⟩
  · obtain ⟨j, hj, h2⟩ := reqField_ok hb54
    exact ⟨j, hj⟩
  · obtain ⟨j, hj, h2⟩ := reqField_ok hb55
    exact ⟨j, hj⟩
  · obtain ⟨j, hj, h2⟩ := reqField_ok hb56
    exact ⟨j, hj⟩
  · obtain ⟨j, hj, h2⟩ := reqField_ok hb57
    exact ⟨j, hj⟩
  · obtain ⟨j, hj, h2⟩ := reqField_ok hb58
    exact ⟨j, hj⟩
  · obtain ⟨j, hj, h2⟩ := reqField_ok hb59
    exact ⟨j, hj⟩
  · obtain ⟨j, hj, h2⟩ := reqField_ok hb60
    exact ⟨j, hj⟩
  · obtain ⟨j, hj, h2⟩ := reqField_ok hb61
    exact ⟨j, hj⟩
  · obtain ⟨j, hj, h2⟩ := reqField_ok hb62
    exact ⟨j, hj⟩
  · obtain ⟨j, hj, h2⟩ := reqField_ok hb63
    exact ⟨j, hj⟩
  · obtain ⟨j, hj, h2⟩ := reqField_ok hb64
    exact ⟨j, hj⟩
  · obtain ⟨j, hj, h2⟩ := reqField_ok hb65
    exact ⟨j, hj⟩
  · obtain ⟨j, hj, h2⟩ := reqField_ok hb66
    exact ⟨j, hj⟩


/-- C6 amended: a Card wire object parses successfully exactly when every
field of the struct that is not typed `Option` — the 43 fields of
`cardRequiredFields`, a strict superset of the eight the spec lists — is
present and valid: a successful parse implies each of the 43 is present, and
the object carrying exactly those 43 with valid values (and no optional
field) parses successfully. -/
theorem c6_card_requires_all_non_option_fields :
    (∀ name ∈ cardRequiredFields, ∀ (l : List (String × Json)) (c : Card),
      cardFromJson (Json.obj l) = .ok c →
      ∃ v, getField l name = .ok (some v)) ∧
    ("id" ∈ cardRequiredFields ∧ "name" ∈ cardRequiredFields ∧
      "layout" ∈ cardRequiredFields ∧ "legalities" ∈ cardRequiredFields ∧
      "rarity" ∈ cardRequiredFields ∧ "type_line" ∈ cardRequiredFields ∧
      "released_at" ∈ cardRequiredFields ∧ "set" ∈ cardRequiredFields ∧
      "lang" ∉ ["id", "name", "layout", "legalities", "rarity", "type_line",
        "released_at", "set"] ∧ "lang" ∈ cardRequiredFields) ∧
    eIsOk (cardFromJson (Json.obj cardReqJson)) = true :=
  ⟨card_ok_required_present, by decide, by decide⟩


/-- C6 counterexample: the wire object carrying exactly the eight fields the
claim calls required, each present and valid, fails to parse (the parser
also demands `lang` and the other non-Option fields), so "parses
successfully exactly when the eight are present and valid" is false on the
code. -/
theorem c6_counterexample :
    cardSpecEightJson.map Prod.fst =
      ["id", "name", "layout", "legalities", "rarity", "type_line",
       "released_at", "set"] ∧
    eIsOk (uuidFromJson (Json.str uuidEx)) = true ∧
    eIsOk (strFromJson (Json.str "Name")) = true ∧
    eIsOk (layoutFromJson (Json.str "normal")) = true ∧
    eIsOk (legalitiesFromJson legalitiesJsonEx) = true ∧
    eIsOk (rarityFromJson (Json.str "rare")) = true ∧
    eIsOk (strFromJson (Json.str "Instant")) = true ∧
    eIsOk (sysTimeFromJson sysTimeJsonEx) = true ∧
    eIsOk (strFromJson (Json.str "khm")) = true ∧
    eIsErr (cardFromJson (Json.obj cardSpecEightJson)) = true := by
  refine ⟨rfl, rfl, rfl, rfl, rfl, rfl, rfl, rfl, rfl, rfl⟩


/-- C6 witness: the necessity half applied at the 43-field object: a
successful parse of `cardReqJson` implies `lang` is present in it. -/
theorem c6_card_requires_all_non_option_fields_witness :
    ∃ v, getField cardReqJson "lang" = .ok (some v) := by
  cases hc : cardFromJson (Json.obj cardReqJson) with
  | error e =>
      have := c6_card_requires_all_non_option_fields.2.2
      rw [hc] at this
      exact absurd this (by simp [eIsOk])
  | ok c =>
      exact c6_card_requires_all_non_option_fields.1 "lang" (by decide)
        cardReqJson c hc


/-- C7 evidence: the code contradicts its own documentation comments.  A
valid RelatedCard wire object parses as a RelatedCard but fails as a
CardFace; a Card whose `all_parts` holds that valid RelatedCard object fails
to parse, because the field is typed `Vec<CardFace>`; and a `card_faces` key
is not decoded at all — adding one (even with garbage content) changes the
parse result in nothing, because the struct field is named `card_face`. -/
theorem c7_code_bug_evidence :
    eIsOk (relatedCardFromJson relatedCardJsonEx) = true ∧
    eIsErr (cardFaceFromJson relatedCardJsonEx) = true ∧
    eIsErr (cardFromJson
      (Json.obj (cardReqJson ++ [("all_parts", Json.arr [relatedCardJsonEx])]))) =
      true ∧
    cardFromJson
        (Json.obj (cardReqJson ++ [("card_faces", Json.arr [Json.null])])) =
      cardFromJson (Json.obj cardReqJson) :=
  ⟨rfl, rfl, rfl, rfl⟩


end Scryfall
